import Mathlib

/-!
Verification development for the resolution core of the `linkd`
dependency-injection library (Python).  The definitions below are a shallow
embedding of `linkd/registry.py`, `linkd/container.py`, `linkd/conditions.py`
and `linkd/solver.py`.  Python objects are modelled by the `Val` type (with an
explicit constructor for Python's `None`), dependency ids are strings, and the
mutable heap of containers is modelled as an explicit `World` threaded through
every operation.  Factories and teardown callbacks are modelled by small
inductive descriptions so that their invocations can be recorded in an event
log; exceptions are modelled with `Except`-style error results that carry the
world (Python exceptions do not roll back side effects).
-/

namespace Linkd

/-- Dependency identifiers (`utils.get_dependency_id` produces a
`module.qualname` string). -/
abbrev DepId := String

/-- Runtime values.  `Val.pynone` models Python's `None` (which the container
treats specially in `_get` and `add_value`); `obj n` models a distinct object
identity; `containerRef i` models the container object stored by the
`add_value(Container, self)` self-registration. -/
inductive Val where
  | pynone : Val
  | obj : Nat → Val
  | containerRef : Nat → Val
  | managerRef : Val
  deriving DecidableEq, Repr

/-- Events recorded while executing container operations: factory invocations
(used to observe memoization) and teardown invocations (used to observe
`close()`). -/
inductive Event where
  | factoryRun : Nat → DepId → Event
  | teardown : DepId → Val → Nat → Event
  deriving DecidableEq, Repr

/-- Behaviour of a registered factory: return a fixed value (covers
`register_value`'s `lambda: value` and `add_value`'s `lambda: None`), return a
freshly allocated object, or raise an exception. -/
inductive FactoryBehavior where
  | const : Val → FactoryBehavior
  | fresh : FactoryBehavior
  | raise : FactoryBehavior
  deriving DecidableEq, Repr

/-- The two condition variants of `linkd/conditions.py` (`_If` and `_Try`). -/
inductive CondKind where
  | ifCond : CondKind
  | tryCond : CondKind
  deriving DecidableEq, Repr

/-- A single condition of a dependency expression (`BaseCondition`): its
variant and the dependency id of its inner type. -/
structure Condition where
  kind : CondKind
  innerId : DepId
  deriving DecidableEq, Repr

/-- `conditions.DependencyExpression`: an ordered list of conditions plus the
`required` flag.  The expression-cache key `hash((required, *(type, inner_id)))`
is modelled by the structure itself (structural equality). -/
structure DependencyExpression where
  order : List Condition
  required : Bool
  deriving DecidableEq, Repr

/-- `graph.DependencyData`: the factory's parameters (name and dependency
expression), its behaviour, and the optional teardown callback (identified by a
number so teardown invocations can be logged). -/
structure DependencyData where
  factoryParams : List (String × DependencyExpression)
  behavior : FactoryBehavior
  teardown : Option Nat
  deriving DecidableEq, Repr

/-- Association-list lookup (first binding wins, like a Python dict read). -/
def alookup [DecidableEq κ] : List (κ × α) → κ → Option α
  | [], _ => Option.none
  | (k, v) :: rest, key => if key = k then some v else alookup rest key

/-- Association-list update preserving the position of an existing key, like
`d[k] = v` on a Python dict (insertion order is kept on overwrite). -/
def aupsert [DecidableEq κ] : List (κ × α) → κ → α → List (κ × α)
  | [], key, v => [(key, v)]
  | (k, v') :: rest, key, v =>
    if k = key then (key, v) :: rest else (k, v') :: aupsert rest key v

/-- Modelled from the spec: `linkd/graph.py` is not present in the sources;
§3/§4.1 of the spec describe a `DiGraph` with `nodes : DependencyId →
DependencyData` and derived edges `DependencyId → DependencyId`. -/
structure DiGraph where
  nodes : List (DepId × DependencyData)
  edges : List (DepId × DepId)
  deriving DecidableEq, Repr

namespace DiGraph

/-- Modelled from the spec: `contains(id)` membership test of the graph. -/
def containsNode (g : DiGraph) (id : DepId) : Bool :=
  (alookup g.nodes id).isSome

/-- Modelled from the spec: `outEdges(id)` of a graph. -/
def outEdges (g : DiGraph) (id : DepId) : List (DepId × DepId) :=
  g.edges.filter (fun e => e.1 = id)

/-- Modelled from the spec: `removeEdge(from, to)`. -/
def removeEdge (g : DiGraph) (a b : DepId) : DiGraph :=
  { g with edges := g.edges.filter (fun e => e ≠ (a, b)) }

/-- Modelled from the spec: adding a node for an `id` that already exists
strips its previous outgoing edges first. -/
def addNode (g : DiGraph) (id : DepId) (data : DependencyData) : DiGraph :=
  { nodes := aupsert g.nodes id data
    edges := g.edges.filter (fun e => e.1 ≠ id) }

/-- Direct successors of `id` in an edge list. -/
def succs (edges : List (DepId × DepId)) (id : DepId) : List DepId :=
  (edges.filter (fun e => e.1 = id)).map (fun e => e.2)

/-- Bounded breadth-first reachability used to implement `children`. -/
def reachAux : Nat → List (DepId × DepId) → List DepId → List DepId → List DepId
  | 0, _, _, acc => acc
  | f + 1, edges, frontier, acc =>
    let next := (frontier.flatMap (succs edges)).filter (fun d => d ∉ acc)
    match next with
    | [] => acc
    | _ => reachAux f edges next (acc ++ next)

/-- Modelled from the spec: `children(id)` is the transitive closure of the
requirement edges starting from `id`; `id ∈ children(id)` signals a cycle. -/
def children (g : DiGraph) (id : DepId) : List DepId :=
  reachAux (g.edges.length + 1) g.edges (succs g.edges id) (succs g.edges id)

/-- The empty graph. -/
def empty : DiGraph := ⟨[], []⟩

end DiGraph

/-- Errors raised during registration (`RegistryFrozenException` and the
registration-time `CircularDependencyException`). -/
inductive RegErr where
  | frozen : RegErr
  | circular : RegErr
  deriving DecidableEq, Repr

/-- The dependency ids named directly by a factory's declared parameters. -/
def paramDepIds (params : List (String × DependencyExpression)) : List DepId :=
  params.flatMap (fun p => p.2.order.map (fun c => c.innerId))

/-- Modelled from the spec: `populate_graph_for_dependency` (in the absent
`linkd/graph.py`) eagerly rejects a factory whose own declared parameters
directly name its own target type (`CircularDependencyException`, cf.
`tests/test_registry.py`), otherwise (re)writes the graph node and adds the
derived requirement edges. -/
def populateGraphForDependency (g : DiGraph) (id : DepId)
    (params : List (String × DependencyExpression)) (behavior : FactoryBehavior)
    (teardown : Option Nat) : Except RegErr DiGraph :=
  if id ∈ paramDepIds params then .error .circular
  else
    let g := g.addNode id ⟨params, behavior, teardown⟩
    .ok { g with edges := g.edges ++ (paramDepIds params).map (fun d => (id, d)) }

/-- `registry.Registry`: the dependency graph plus the set of bound (active)
containers; the registry is frozen while that set is non-empty. -/
structure Registry where
  graph : DiGraph
  activeContainers : List Nat
  deriving DecidableEq, Repr

namespace Registry

/-- `Registry.__init__`. -/
def new : Registry := ⟨DiGraph.empty, []⟩

/-- `Registry.register_factory` (registry.py:104-140): raise `RegistryFrozen`
while any container is bound, strip stale out-edges of an overridden node, then
populate the graph (which performs the eager direct-self-dependency check). -/
def registerFactory (r : Registry) (id : DepId)
    (params : List (String × DependencyExpression)) (behavior : FactoryBehavior)
    (teardown : Option Nat) : Except RegErr Registry :=
  if r.activeContainers ≠ [] then .error .frozen
  else
    let g := r.graph
    let g := if g.containsNode id then
        { g with edges := g.edges.filter (fun e => e.1 ≠ id) }
      else g
    match populateGraphForDependency g id params behavior teardown with
    | .error e => .error e
    | .ok g' => .ok { r with graph := g' }

/-- `Registry.register_value` (registry.py:80-102): sugar for
`register_factory(typ, lambda: value, teardown)` — a parameterless constant
factory. -/
def registerValue (r : Registry) (id : DepId) (v : Val) (teardown : Option Nat) :
    Except RegErr Registry :=
  r.registerFactory id [] (.const v) teardown

end Registry

/-- `container.Container` state: its registry index, the weak parent
back-reference, the scope tag, the `closed` flag, the container's private
graph copy, the memoized `instances`, the per-expression cache, and the
change-listener set (indices of child containers whose `_on_change` was
registered). -/
structure ContainerState where
  registryIdx : Nat
  parentIdx : Option Nat
  tag : Option String
  closed : Bool
  graph : DiGraph
  instances : List (DepId × Val)
  exprCache : List (DependencyExpression × Val)
  listeners : List Nat
  deriving DecidableEq, Repr

/-- The explicit heap: all registries and containers ever created, a counter
for fresh object identities, and the event log of factory/teardown
invocations. -/
structure World where
  registries : List Registry
  containers : List ContainerState
  freshCounter : Nat
  events : List Event
  deriving DecidableEq, Repr

namespace World

def modifyContainer (w : World) (i : Nat) (f : ContainerState → ContainerState) : World :=
  match w.containers[i]? with
  | Option.none => w
  | some c => { w with containers := w.containers.set i (f c) }

def modifyRegistry (w : World) (i : Nat) (f : Registry → Registry) : World :=
  match w.registries[i]? with
  | Option.none => w
  | some r => { w with registries := w.registries.set i (f r) }

def logEvent (w : World) (e : Event) : World :=
  { w with events := w.events ++ [e] }

def empty : World := ⟨[], [], 0, []⟩

end World

/-- The dependency id of `linkd.container.Container`, registered on every
container by `Container.__init__` via `add_value(Container, self)`. -/
def containerDepId : DepId := "linkd.container.Container"

/-- The dependency id of `linkd.context.RootContainer`, the linked type the
root context's container registers itself as. -/
def rootContainerDepId : DepId := "linkd.context.RootContainer"

/-- The dependency id of `linkd.solver.DependencyInjectionManager`. -/
def managerDepId : DepId := "linkd.solver.DependencyInjectionManager"

/-- `Container._on_change` clears this container's expression cache
(container.py:114-117); propagation to listeners is `onChangeAux` below. -/
def clearCache (w : World) (i : Nat) : World :=
  w.modifyContainer i (fun c => { c with exprCache := [] })

def listenersOf (w : World) (i : Nat) : List Nat :=
  match w.containers[i]? with
  | Option.none => []
  | some c => c.listeners

mutual
/-- `Container._on_change` (container.py:114-117): clear the own expression
cache, then invoke every registered child listener.  The fuel bounds listener
chains (in well-formed worlds listener indices strictly increase, so
`containers.length + 1` is always enough). -/
def onChangeAux : Nat → World → Nat → World
  | 0, w, _ => w
  | f + 1, w, i =>
    let w' := clearCache w i
    onChangeList f w' (listenersOf w' i)
termination_by structural f _ _ => f

/-- Invoke `_on_change` for each listener in turn. -/
def onChangeList : Nat → World → List Nat → World
  | 0, w, _ => w
  | _ + 1, w, [] => w
  | f + 1, w, j :: rest => onChangeList f (onChangeAux f w j) rest
termination_by structural f _ _ => f
end

def onChange (w : World) (i : Nat) : World :=
  onChangeAux ((w.containers.length + 1) * (w.containers.length + 1)) w i

/-- `Container.add_value` (container.py:164-194): store the value in
`instances`, strip stale out-edges, add a graph node whose factory is
`lambda: None`, and fire `_on_change`. -/
def addValue (w : World) (i : Nat) (id : DepId) (v : Val) (teardown : Option Nat) : World :=
  let w := w.modifyContainer i (fun c =>
    let c := { c with instances := aupsert c.instances id v }
    let g := if c.graph.containsNode id then
        { c.graph with edges := c.graph.edges.filter (fun e => e.1 ≠ id) }
      else c.graph
    { c with graph := g.addNode id ⟨[], .const Val.pynone, teardown⟩ })
  onChange w i

/-- `Container.add_factory` (container.py:133-162): strip stale out-edges,
populate the private graph (the eager self-dependency check can raise), and
fire `_on_change`. -/
def addFactory (w : World) (i : Nat) (id : DepId)
    (params : List (String × DependencyExpression)) (behavior : FactoryBehavior)
    (teardown : Option Nat) : Except RegErr World :=
  match w.containers[i]? with
  | Option.none => .ok w
  | some c =>
    let g := if c.graph.containsNode id then
        { c.graph with edges := c.graph.edges.filter (fun e => e.1 ≠ id) }
      else c.graph
    match populateGraphForDependency g id params behavior teardown with
    | .error e => .error e
    | .ok g' =>
      let w := w.modifyContainer i (fun c => { c with graph := g' })
      .ok (onChange w i)

/-- `Container.__init__` (container.py:66-85): freeze the registry, copy its
graph, self-register via `add_value(Container, self)`, and register the
`_on_change` listener with the parent.  Returns the new container's index. -/
def mkContainer (w : World) (ridx : Nat) (parent : Option Nat) (tag : Option String) :
    World × Nat :=
  let idx := w.containers.length
  let w := w.modifyRegistry ridx
    (fun r => { r with activeContainers := idx :: r.activeContainers })
  let g := match w.registries[ridx]? with
    | some r => r.graph
    | Option.none => DiGraph.empty
  let c : ContainerState :=
    { registryIdx := ridx, parentIdx := parent, tag := tag, closed := false,
      graph := g, instances := [], exprCache := [], listeners := [] }
  let w := { w with containers := w.containers ++ [c] }
  let w := addValue w idx containerDepId (Val.containerRef idx) Option.none
  let w := match parent with
    | some p => w.modifyContainer p (fun pc => { pc with listeners := pc.listeners ++ [idx] })
    | Option.none => w
  (w, idx)

/-- The teardown events produced by closing a container: one per memoized
instance whose graph node carries a teardown callback. -/
def teardownEventsOf (c : ContainerState) : List Event :=
  c.instances.filterMap (fun p =>
    match alookup c.graph.nodes p.1 with
    | Option.none => Option.none
    | some d => d.teardown.map (fun td => Event.teardown p.1 p.2 td))

/-- `Container.close` (container.py:119-131): deregister the parent listener,
run teardown for each created instance whose node has one, unfreeze the
registry, and mark the container closed. -/
def closeContainer (w : World) (i : Nat) : World :=
  match w.containers[i]? with
  | Option.none => w
  | some c =>
    let w := match c.parentIdx with
      | some p => w.modifyContainer p
          (fun pc => { pc with listeners := pc.listeners.filter (fun j => j ≠ i) })
      | Option.none => w
    let w := { w with events := w.events ++ teardownEventsOf c }
    let w := w.modifyRegistry c.registryIdx
      (fun r => { r with activeContainers := r.activeContainers.filter (fun j => j ≠ i) })
    w.modifyContainer i (fun c => { c with closed := true })

/-- `Container.__contains__` (container.py:90-104): the id is in `instances`
or in the private graph, else ask the parent. -/
def containsDep : Nat → World → Nat → DepId → Bool
  | 0, _, _, _ => false
  | f + 1, w, i, id =>
    match w.containers[i]? with
    | Option.none => false
    | some c =>
      if (alookup c.instances id).isSome then true
      else if (alookup c.graph.nodes id).isSome then true
      else match c.parentIdx with
        | Option.none => false
        | some p => containsDep f w p id

/-- Errors raised during resolution.  `outOfFuel` is a modelling artifact for
exhausted recursion fuel (it corresponds to no Python exception and is never
caught by `Try`). -/
inductive GetErr where
  | containerClosed : GetErr
  | circular : GetErr
  | notSatisfiable : GetErr
  | outOfFuel : GetErr
  deriving DecidableEq, Repr

/-- Invoke a factory: constant factories return their value, `fresh` allocates
a new object identity, `raise` models a factory raising an exception. -/
def runFactory (w : World) (b : FactoryBehavior) : World × Except Unit Val :=
  match b with
  | .const v => (w, .ok v)
  | .fresh => ({ w with freshCounter := w.freshCounter + 1 }, .ok (Val.obj w.freshCounter))
  | .raise => (w, .error ())

/-- Store a resolved expression value in the container's expression cache. -/
def cacheSet (w : World) (i : Nat) (e : DependencyExpression) (v : Val) : World :=
  w.modifyContainer i (fun c => { c with exprCache := aupsert c.exprCache e v })

mutual
/-- `Container._get` (container.py:196-234): fail if closed; return a memoized
instance only if it is not `None` (`if (existing := ...) is not None`);
delegate to the parent when the private graph lacks the node; detect
transitive cycles; resolve each factory parameter's expression against this
container (wrapping sub-dependency failures); invoke the factory (wrapping
factory exceptions); memoize. -/
def getDep : Nat → World → Nat → DepId → World × Except GetErr Val
  | 0, w, _, _ => (w, .error .outOfFuel)
  | f + 1, w, i, id =>
    match w.containers[i]? with
    | Option.none => (w, .error .notSatisfiable)
    | some c =>
      if c.closed then (w, .error .containerClosed)
      else
        let memoHit := match alookup c.instances id with
          | some v => if v = Val.pynone then Option.none else some v
          | Option.none => Option.none
        match memoHit with
        | some v => (w, .ok v)
        | Option.none =>
          match alookup c.graph.nodes id with
          | Option.none =>
            match c.parentIdx with
            | Option.none => (w, .error .notSatisfiable)
            | some p => getDep f w p id
          | some data =>
            if id ∈ c.graph.children id then (w, .error .circular)
            else
              match resolveParams f w i data.factoryParams with
              | (w, .error e) => (w, .error e)
              | (w, .ok _) =>
                let w := w.logEvent (.factoryRun i id)
                match runFactory w data.behavior with
                | (w, .error _) => (w, .error .notSatisfiable)
                | (w, .ok v) =>
                  let w := w.modifyContainer i
                    (fun c => { c with instances := aupsert c.instances id v })
                  (w, .ok v)
termination_by structural f _ _ _ => f

/-- Resolve the factory's parameter expressions in order, wrapping a
`DependencyNotSatisfiableException` from a sub-expression (container.py:
219-225). -/
def resolveParams : Nat → World → Nat → List (String × DependencyExpression) →
    World × Except GetErr (List Val)
  | 0, w, _, _ => (w, .error .outOfFuel)
  | _ + 1, w, _, [] => (w, .ok [])
  | f + 1, w, i, (_, e) :: rest =>
    match resolveExpr f w i e with
    | (w, .error err) => (w, .error err)
    | (w, .ok v) =>
      match resolveParams f w i rest with
      | (w, .error err) => (w, .error err)
      | (w, .ok vs) => (w, .ok (v :: vs))
termination_by structural f _ _ _ => f

/-- `DependencyExpression.resolve` (conditions.py:180-212): consult the
expression cache; fast path when `required` with a single condition; otherwise
iterate the conditions in order, first success wins and is cached; a
non-required expression caches and returns `None` when nothing succeeded. -/
def resolveExpr : Nat → World → Nat → DependencyExpression → World × Except GetErr Val
  | 0, w, _, _ => (w, .error .outOfFuel)
  | f + 1, w, i, e =>
    match w.containers[i]? with
    | Option.none => (w, .error .notSatisfiable)
    | some c =>
      match alookup c.exprCache e with
      | some v => (w, .ok v)
      | Option.none =>
        match e.order, e.required with
        | [c0], true =>
          match getDep f w i c0.innerId with
          | (w, .error err) => (w, .error err)
          | (w, .ok v) => (cacheSet w i e v, .ok v)
        | order, _ => condLoop f w i e order
termination_by structural f _ _ _ => f

/-- The fallback loop of `DependencyExpression.resolve`. -/
def condLoop : Nat → World → Nat → DependencyExpression → List Condition →
    World × Except GetErr Val
  | 0, w, _, _, _ => (w, .error .outOfFuel)
  | _ + 1, w, i, e, [] =>
    if e.required then (w, .error .notSatisfiable)
    else (cacheSet w i e Val.pynone, .ok Val.pynone)
  | f + 1, w, i, e, cond :: rest =>
    match condGetFrom f w i cond with
    | (w, .error err) => (w, .error err)
    | (w, .ok (true, v)) => (cacheSet w i e v, .ok v)
    | (w, .ok (false, _)) => condLoop f w i e rest
termination_by structural f _ _ _ _ => f

/-- `_If._get_from` / `_Try._get_from` (conditions.py:125-153): `If` succeeds
iff the id is known to the container chain (errors from `_get` propagate);
`Try` attempts `_get` and treats any `DependencyInjectionException` as
"not found". -/
def condGetFrom : Nat → World → Nat → Condition → World × Except GetErr (Bool × Val)
  | 0, w, _, _ => (w, .error .outOfFuel)
  | f + 1, w, i, cond =>
    match cond.kind with
    | .ifCond =>
      if containsDep (w.containers.length + 1) w i cond.innerId then
        match getDep f w i cond.innerId with
        | (w, .error err) => (w, .error err)
        | (w, .ok v) => (w, .ok (true, v))
      else (w, .ok (false, Val.pynone))
    | .tryCond =>
      match getDep f w i cond.innerId with
      | (w, .ok v) => (w, .ok (true, v))
      | (w, .error .outOfFuel) => (w, .error .outOfFuel)
      | (w, .error _) => (w, .ok (false, Val.pynone))
termination_by structural f _ _ _ => f
end

/-- Atoms of a requested type expression (a member of a union type hint):
a bare concrete type, an explicit `If[...]` or `Try[...]` wrapper, or `None`. -/
inductive TypeAtom where
  | ty : DepId → TypeAtom
  | ifC : DepId → TypeAtom
  | tryC : DepId → TypeAtom
  | noneTy : TypeAtom
  deriving DecidableEq, Repr

/-- A type expression is a union of atoms (a singleton list models a bare
type hint). -/
abbrev TypeExpr := List TypeAtom

/-- The condition list collected by `DependencyExpression.create`. -/
def createConds : TypeExpr → List Condition
  | [] => []
  | .noneTy :: rest => createConds rest
  | .ty id :: rest => ⟨.ifCond, id⟩ :: createConds rest
  | .ifC id :: rest => ⟨.ifCond, id⟩ :: createConds rest
  | .tryC id :: rest => ⟨.tryCond, id⟩ :: createConds rest

/-- The `required` flag collected by `DependencyExpression.create`: cleared
iff some union member is `None`. -/
def createRequired : TypeExpr → Bool
  | [] => true
  | .noneTy :: _ => false
  | _ :: rest => createRequired rest

/-- `DependencyExpression.create` (conditions.py:216-254): a `None` member
clears the `required` flag and is skipped; a bare type becomes an `If`
condition; explicit wrappers keep their variant. -/
def createExpr (args : TypeExpr) : DependencyExpression :=
  ⟨createConds args, createRequired args⟩

/-- `Container.get` (container.py:241-262): fail if closed, then create the
dependency expression for the requested type and resolve it. -/
def getContainer (fuel : Nat) (w : World) (i : Nat) (texpr : TypeExpr) :
    World × Except GetErr Val :=
  match w.containers[i]? with
  | Option.none => (w, .error .notSatisfiable)
  | some c =>
    if c.closed then (w, .error .containerClosed)
    else resolveExpr fuel w i (createExpr texpr)

/-! ### Scope manager (`solver.DependencyInjectionManager`) -/

/-- The root context label (`linkd.contexts.default`). -/
def rootCtx : String := "linkd.contexts.default"

/-- The `global_context_registry` in its default state: the root context is
linked to the `RootContainer` self-type (context.py:119-126). -/
def contextTypeFor (ctx : String) : Option DepId :=
  if ctx = rootCtx then some rootContainerDepId else Option.none

/-- `DependencyInjectionManager` state: the root (default) container and the
per-context registries (created on demand, `collections.defaultdict`). -/
structure Manager where
  defaultContainer : Option Nat
  registries : List (String × Nat)
  deriving DecidableEq, Repr

/-- `DependencyInjectionManager.registry_for`: get or lazily create the
registry for a context. -/
def registryFor (w : World) (m : Manager) (ctx : String) : World × Manager × Nat :=
  match alookup m.registries ctx with
  | some ri => (w, m, ri)
  | Option.none =>
    let ri := w.registries.length
    ({ w with registries := w.registries ++ [Registry.new] },
     { m with registries := m.registries ++ [(ctx, ri)] }, ri)

/-- The walk of `enter_context` over the ambient container's parent chain
looking for a container already tagged with the requested context
(solver.py:194-204). -/
def chainFind : Nat → World → Option Nat → String → Option Nat
  | 0, _, _, _ => Option.none
  | f + 1, w, curr, ctx =>
    match curr with
    | Option.none => Option.none
    | some i =>
      match w.containers[i]? with
      | Option.none => Option.none
      | some c =>
        if c.tag = some ctx then some i
        else chainFind f w c.parentIdx ctx

/-- `DependencyInjectionManager.enter_context` (solver.py:148-234), the entry
half: reuse a container already tagged on the ambient chain, else reuse the
process-wide root container, else create a new container chained to the
ambient one (self-registering the context's linked type, and for the root
additionally the manager itself).  Returns the updated world and manager, the
entered container's index, and the `created` flag. -/
def enterContext (w : World) (m : Manager) (ambient : Option Nat) (ctx : String) :
    World × Manager × Nat × Bool :=
  match chainFind (w.containers.length + 1) w ambient ctx with
  | some i => (w, m, i, false)
  | Option.none =>
    match m.defaultContainer with
    | some d =>
      if ctx = rootCtx then (w, m, d, false)
      else enterCreate w m ambient ctx
    | Option.none => enterCreate w m ambient ctx
where
  /-- The container-creation branch of `enter_context` (solver.py:210-221). -/
  enterCreate (w : World) (m : Manager) (ambient : Option Nat) (ctx : String) :
      World × Manager × Nat × Bool :=
    let (w, m, ri) := registryFor w m ctx
    let (w, idx) := mkContainer w ri ambient (some ctx)
    let w := match contextTypeFor ctx with
      | some tid => addValue w idx tid (Val.containerRef idx) Option.none
      | Option.none => w
    if ctx = rootCtx then
      (addValue w idx managerDepId Val.managerRef Option.none,
       { m with defaultContainer := some idx }, idx, true)
    else (w, m, idx, true)

/-- The exit half of `enter_context` (solver.py:226-234): the container is
closed only when it was newly created for this entry and is not the reused
process-wide root container. -/
def exitContext (w : World) (m : Manager) (idx : Nat) (created : Bool) : World :=
  if created ∧ m.defaultContainer ≠ some idx then closeContainer w idx else w

/-! ### Resolution plan execution (`solver.AutoInjecting`) -/

/-- `DependencyExpression.resolve`'s guard for a missing ambient container
(conditions.py:191-193) followed by the actual resolution: this is what each
`await expr.resolve(container)` in the generated resolver does. -/
def resolveOne (fuel : Nat) (w : World) ( container : Option Nat)
    (e : DependencyExpression) : World × Except GetErr Val :=
  match container with
  | Option.none => (w, .error .notSatisfiable)
  | some i => resolveExpr fuel w i e

/-- The positional-or-keyword loop of the generated resolver
(solver.py:456-465): for the parameter at index `i`, inject only when it is
injectable, its name is not already a keyword argument, and it was not covered
by the positional arguments (`arglen < (i + 1) - offset`). -/
def injectPosOrKw (fuel : Nat) (container : Option Nat) (offset arglen : Nat) :
    World → Nat → List (String × Option DependencyExpression) →
    List (String × Val) → World × Except GetErr (List (String × Val))
  | w, _, [], kw => (w, .ok kw)
  | w, i, (name, dep) :: rest, kw =>
    match dep with
    | Option.none => injectPosOrKw fuel container offset arglen w (i + 1) rest kw
    | some e =>
      if (alookup kw name).isSome then
        injectPosOrKw fuel container offset arglen w (i + 1) rest kw
      else if arglen < (i + 1) - offset then
        match resolveOne fuel w container e with
        | (w, .error err) => (w, .error err)
        | (w, .ok v) =>
          injectPosOrKw fuel container offset arglen w (i + 1) rest (aupsert kw name v)
      else injectPosOrKw fuel container offset arglen w (i + 1) rest kw

/-- The keyword-only loop of the generated resolver (solver.py:467-472). -/
def injectKwOnly (fuel : Nat) (container : Option Nat) :
    World → List (String × Option DependencyExpression) →
    List (String × Val) → World × Except GetErr (List (String × Val))
  | w, [], kw => (w, .ok kw)
  | w, (name, dep) :: rest, kw =>
    match dep with
    | Option.none => injectKwOnly fuel container w rest kw
    | some e =>
      if (alookup kw name).isSome then injectKwOnly fuel container w rest kw
      else
        match resolveOne fuel w container e with
        | (w, .error err) => (w, .error err)
        | (w, .ok v) => injectKwOnly fuel container w rest (aupsert kw name v)

/-- The generated `resolve_dependencies` function
(`AutoInjecting._codegen_dependency_func`, solver.py:422-486): start from a
copy of the caller's keyword arguments and fill in only the gaps. -/
def resolveDependencies (fuel : Nat) (w : World) (container : Option Nat)
    (offset : Nat) (posOrKw kwOnly : List (String × Option DependencyExpression))
    (arglen : Nat) (kwargs : List (String × Val)) :
    World × Except GetErr (List (String × Val)) :=
  match injectPosOrKw fuel container offset arglen w 0 posOrKw kwargs with
  | (w, .error err) => (w, .error err)
  | (w, .ok kw) => injectKwOnly fuel container w kwOnly kw

/-- The value the wrapped function finally receives for the
positional-or-keyword parameter at index `i` when called as
`self._func(*args, **new_kwargs)` (solver.py:418-420): a positional argument
if one covers the index, otherwise the (possibly injected) keyword argument. -/
def paramBinding (posOrKw : List (String × Option DependencyExpression))
    (args : List Val) (newKwargs : List (String × Val)) (i : Nat) : Option Val :=
  if i < args.length then args[i]?
  else match posOrKw[i]? with
    | some (name, _) => alookup newKwargs name
    | Option.none => Option.none

/-- Concrete parent registry for the parent/child scenario: a fresh-object
factory registered under id `m.T` on a new registry. -/
def sampleParentRegistry : Registry :=
  ⟨⟨[("m.T", ⟨[], .fresh, Option.none⟩)], []⟩, []⟩

/-- Concrete two-registry world for the parent/child scenario. -/
def sampleWorld0 : World := ⟨[sampleParentRegistry, Registry.new], [], 0, []⟩

/-- The world after building the parent container (index 0). -/
def sampleWorld1 : World := (mkContainer sampleWorld0 0 Option.none Option.none).1

/-- The world after building the child container (index 1). -/
def sampleWorld2 : World := (mkContainer sampleWorld1 1 (some 0) Option.none).1

/-- Concrete registry for the condition-fallback scenario: `m.R` has a raising
factory, `m.S` a succeeding one. -/
def sampleCondRegistry : Registry :=
  ⟨⟨[("m.R", ⟨[], .raise, Option.none⟩),
     ("m.S", ⟨[], .const (Val.obj 3), Option.none⟩)], []⟩, []⟩

/-- The world holding one container built from `sampleCondRegistry`. -/
def sampleCondWorld : World :=
  (mkContainer ⟨[sampleCondRegistry], [], 0, []⟩ 0 Option.none Option.none).1

/-- The state of the single container of `sampleCondWorld`. -/
def sampleCondContainer : ContainerState :=
  { registryIdx := 0, parentIdx := Option.none, tag := Option.none, closed := false,
    graph := ⟨[("m.R", ⟨[], .raise, Option.none⟩),
               ("m.S", ⟨[], .const (Val.obj 3), Option.none⟩),
               (containerDepId, ⟨[], .const Val.pynone, Option.none⟩)], []⟩,
    instances := [(containerDepId, Val.containerRef 0)],
    exprCache := [], listeners := [] }

/-- Registry with a teardown-carrying value dependency, for the close()
scenario. -/
def sampleTdRegistry : Registry :=
  ⟨⟨[("m.T", ⟨[], .const (Val.obj 7), some 42⟩)], []⟩, []⟩

/-- World after building a container on `sampleTdRegistry` and resolving
`m.T` once (so its instance is memoized). -/
def sampleTdWorld : World :=
  (getContainer 5 (mkContainer ⟨[sampleTdRegistry], [], 0, []⟩ 0 Option.none Option.none).1
    0 [TypeAtom.ty "m.T"]).1

/-- The state of `sampleTdWorld`'s single container. -/
def sampleTdContainer : ContainerState :=
  { registryIdx := 0, parentIdx := Option.none, tag := Option.none, closed := false,
    graph := ⟨[("m.T", ⟨[], .const (Val.obj 7), some 42⟩),
               (containerDepId, ⟨[], .const Val.pynone, Option.none⟩)], []⟩,
    instances := [(containerDepId, Val.containerRef 0), ("m.T", Val.obj 7)],
    exprCache := [(⟨[⟨.ifCond, "m.T"⟩], true⟩, Val.obj 7)],
    listeners := [] }

/-- World with a single container on which `add_value("m.N", None)` was
called: the stored instance is Python `None`. -/
def sampleNoneWorld : World :=
  addValue (mkContainer ⟨[Registry.new], [], 0, []⟩ 0 Option.none Option.none).1
    0 "m.N" Val.pynone Option.none

/-- The state of `sampleNoneWorld`'s single container. -/
def sampleNoneContainer : ContainerState :=
  { registryIdx := 0, parentIdx := Option.none, tag := Option.none, closed := false,
    graph := ⟨[(containerDepId, ⟨[], .const Val.pynone, Option.none⟩),
               ("m.N", ⟨[], .const Val.pynone, Option.none⟩)], []⟩,
    instances := [(containerDepId, Val.containerRef 0), ("m.N", Val.pynone)],
    exprCache := [], listeners := [] }

/-- A three-container chain (0 ← 1 ← 2, each child registering its change
listener with its parent), all on one registry. -/
def sampleChainWorld : World :=
  (mkContainer
    ((mkContainer
      ((mkContainer ⟨[Registry.new], [], 0, []⟩ 0 Option.none Option.none).1)
      0 (some 0) Option.none).1)
    0 (some 1) Option.none).1

/-- World with `int` registered as the value 5, for the injection example
(`x: int` resolved to 5 unless the caller supplies `x`). -/
def sampleIntWorld : World :=
  (mkContainer ⟨[⟨⟨[("builtins.int", ⟨[], .const (Val.obj 5), Option.none⟩)], []⟩, []⟩],
    [], 0, []⟩ 0 Option.none Option.none).1

/-- The compiled parameter plan of `f(x: int)`: one injectable
positional-or-keyword parameter. -/
def samplePosOrKw : List (String × Option DependencyExpression) :=
  [("x", some (createExpr [TypeAtom.ty "builtins.int"]))]

/-- The expression cache of container `j` (empty for indices out of range). -/
def exprCacheOf (w : World) (j : Nat) : List (DependencyExpression × Val) :=
  match w.containers[j]? with
  | Option.none => []
  | some c => c.exprCache

/-- A chain of registered change-listeners from container `i` down to
container `j`: each step moves to a container in the previous one's listener
set.  (Children register themselves as listeners in `Container.__init__`.) -/
def listenerChain (w : World) : Nat → List Nat → Nat → Prop
  | i, [], j => i = j
  | i, k :: rest, j => k ∈ listenersOf w i ∧ listenerChain w k rest j

/-- Number of teardown events for a given dependency id in an event list. -/
def countTeardownFor (evs : List Event) (id : DepId) : Nat :=
  (evs.filter (fun ev =>
    match ev with
    | .teardown id' _ _ => id' = id
    | _ => false)).length

/-- Number of factory invocations logged for a dependency id on a given
container. -/
def countFactoryRuns (evs : List Event) (i : Nat) (id : DepId) : Nat :=
  (evs.filter (fun ev =>
    match ev with
    | .factoryRun i' id' => i' = i ∧ id' = id
    | _ => false)).length

/-!
## Lemmas

Everything from here on is proof: basic association-list lemmas, frame lemmas
about which state components each operation can touch, and the claim theorems.
-/

@[simp] theorem alookup_nil [DecidableEq κ] (key : κ) :
    alookup ([] : List (κ × α)) key = Option.none := rfl

@[simp] theorem alookup_cons [DecidableEq κ] (k : κ) (v : α) (rest : List (κ × α)) (key : κ) :
    alookup ((k, v) :: rest) key = if key = k then some v else alookup rest key := rfl

@[simp] theorem aupsert_nil [DecidableEq κ] (key : κ) (v : α) :
    aupsert ([] : List (κ × α)) key v = [(key, v)] := rfl

theorem alookup_aupsert_self [DecidableEq κ] (l : List (κ × α)) (key : κ) (v : α) :
    alookup (aupsert l key v) key = some v := by
  induction l with
  | nil => simp [aupsert, alookup]
  | cons p rest ih =>
    obtain ⟨k, v'⟩ := p
    by_cases h : k = key
    · subst h; simp [aupsert, alookup]
    · have h' : ¬(key = k) := fun h' => h h'.symm
      simp [aupsert, alookup, h, h', ih]

theorem alookup_aupsert_ne [DecidableEq κ] (l : List (κ × α)) (key key' : κ) (v : α)
    (h : key' ≠ key) : alookup (aupsert l key v) key' = alookup l key' := by
  induction l with
  | nil => simp [aupsert, alookup, h]
  | cons p rest ih =>
    obtain ⟨k, v'⟩ := p
    by_cases hk : k = key
    · subst hk; simp [aupsert, alookup, h]
    · simp [aupsert, alookup, hk, ih]

namespace DiGraph

theorem succs_eq_nil_iff (edges : List (DepId × DepId)) (id : DepId) :
    succs edges id = [] ↔ ∀ e ∈ edges, ¬(e.1 = id) := by
  simp [succs, List.filter_eq_nil_iff]

theorem succs_nil_of_filter (edges : List (DepId × DepId)) (p : DepId × DepId → Bool)
    (id : DepId) (h : succs edges id = []) : succs (edges.filter p) id = [] := by
  rw [succs_eq_nil_iff] at h ⊢
  intro e he
  exact h e (List.mem_of_mem_filter he)

theorem succs_filter_ne_self (edges : List (DepId × DepId)) (id : DepId) :
    succs (edges.filter (fun e => e.1 ≠ id)) id = [] := by
  rw [succs_eq_nil_iff]
  intro e he
  have := List.of_mem_filter he
  simpa using this

theorem children_nil_of_succs_nil (g : DiGraph) (id : DepId)
    (h : succs g.edges id = []) : children g id = [] := by
  unfold children
  rw [h]
  cases hl : g.edges.length + 1 with
  | zero => simp at hl
  | succ f => simp [reachAux]

theorem succs_filter_not_eq (edges : List (DepId × DepId)) (id : DepId) :
    succs (edges.filter (fun e => !decide (e.1 = id))) id = [] := by
  rw [succs_eq_nil_iff]
  intro e he
  have := List.of_mem_filter he
  simpa using this

theorem children_nil_of_all_ne (g : DiGraph) (id : DepId)
    (h : ∀ e ∈ g.edges, ¬(e.1 = id)) : children g id = [] :=
  children_nil_of_succs_nil _ _ ((succs_eq_nil_iff _ _).mpr h)

end DiGraph

namespace Registry

/-- Unpacking a successful `register_value`: it can only succeed on an
unfrozen registry, it stores a parameterless constant-factory node for the id,
and leaves the id without outgoing edges. -/
theorem registerValue_ok (r r' : Registry) (id : DepId) (v : Val) (td : Option Nat)
    (h : r.registerValue id v td = .ok r') :
    alookup r'.graph.nodes id = some ⟨[], .const v, td⟩ ∧
    DiGraph.succs r'.graph.edges id = [] ∧
    r'.activeContainers = [] ∧ r.activeContainers = [] := by
  unfold registerValue registerFactory at h
  by_cases ha : r.activeContainers = []
  · simp only [ha, ne_eq, not_true_eq_false, if_false,
      populateGraphForDependency, paramDepIds] at h
    simp only [List.flatMap_nil, List.not_mem_nil, if_false, List.map_nil,
      List.append_nil, Except.ok.injEq] at h
    subst h
    refine ⟨?_, ?_, rfl, ha⟩
    · simp [DiGraph.addNode, alookup_aupsert_self]
    · simp only [DiGraph.addNode]
      exact DiGraph.succs_filter_ne_self _ id
  · simp [ha] at h

/-- Successful `register_factory` leaves `activeContainers` untouched. -/
theorem registerFactory_ok_active (r r' : Registry) (id : DepId)
    (params : List (String × DependencyExpression)) (behavior : FactoryBehavior)
    (td : Option Nat) (h : r.registerFactory id params behavior td = .ok r') :
    r'.activeContainers = r.activeContainers := by
  unfold registerFactory at h
  by_cases ha : r.activeContainers = []
  · simp only [ha, ne_eq, not_true_eq_false, if_false, populateGraphForDependency] at h
    by_cases hm : id ∈ paramDepIds params
    · simp [hm] at h
    · simp only [hm, if_false] at h
      cases h
      exact ha.symm
  · simp [ha] at h

end Registry

/-- C6: for every unfrozen registry and type `T`, `register_factory(T, f)`
where the factory `f` declares a parameter whose annotation names `T` itself
(a direct self-dependency) raises `CircularDependency` at registration time —
the result is the registration-time error, before any resolution machinery
(containers, `_get`) is ever involved. -/
theorem c6_direct_selfdep_rejected_at_registration (r : Registry) (id : DepId)
    (params : List (String × DependencyExpression)) (behavior : FactoryBehavior)
    (td : Option Nat) (hfree : r.activeContainers = [])
    (hself : id ∈ paramDepIds params) :
    r.registerFactory id params behavior td = .error .circular := by
  unfold Registry.registerFactory
  simp [hfree, populateGraphForDependency, hself]

/-- Witness for C6: registering a factory for `object` whose single parameter
is annotated `object` (cf. `tests/test_registry.py`) fails with the circular
error. -/
theorem c6_direct_selfdep_rejected_at_registration_witness :
    Registry.new.activeContainers = [] ∧
    "builtins.object" ∈ paramDepIds [("x", ⟨[⟨.ifCond, "builtins.object"⟩], true⟩)] ∧
    Registry.new.registerFactory "builtins.object"
      [("x", ⟨[⟨.ifCond, "builtins.object"⟩], true⟩)] (.const (Val.obj 0)) Option.none
      = .error .circular :=
  ⟨rfl, by decide,
   c6_direct_selfdep_rejected_at_registration Registry.new "builtins.object"
     [("x", ⟨[⟨.ifCond, "builtins.object"⟩], true⟩)] (.const (Val.obj 0)) Option.none
     rfl (by decide)⟩

/-! ### Frame lemmas: which state components each operation can touch. -/

@[simp] theorem World.modifyContainer_registries (w : World) (i : Nat)
    (f : ContainerState → ContainerState) :
    (w.modifyContainer i f).registries = w.registries := by
  unfold World.modifyContainer
  cases w.containers[i]? <;> rfl

@[simp] theorem World.modifyContainer_events (w : World) (i : Nat)
    (f : ContainerState → ContainerState) :
    (w.modifyContainer i f).events = w.events := by
  unfold World.modifyContainer
  cases w.containers[i]? <;> rfl

@[simp] theorem World.modifyContainer_length (w : World) (i : Nat)
    (f : ContainerState → ContainerState) :
    (w.modifyContainer i f).containers.length = w.containers.length := by
  unfold World.modifyContainer
  cases w.containers[i]? <;> simp

@[simp] theorem World.modifyRegistry_containers (w : World) (i : Nat)
    (f : Registry → Registry) :
    (w.modifyRegistry i f).containers = w.containers := by
  unfold World.modifyRegistry
  cases w.registries[i]? <;> rfl

@[simp] theorem World.modifyRegistry_events (w : World) (i : Nat)
    (f : Registry → Registry) :
    (w.modifyRegistry i f).events = w.events := by
  unfold World.modifyRegistry
  cases w.registries[i]? <;> rfl

@[simp] theorem clearCache_registries (w : World) (i : Nat) :
    (clearCache w i).registries = w.registries := by
  unfold clearCache; simp

@[simp] theorem clearCache_events (w : World) (i : Nat) :
    (clearCache w i).events = w.events := by
  unfold clearCache; simp

@[simp] theorem clearCache_length (w : World) (i : Nat) :
    (clearCache w i).containers.length = w.containers.length := by
  unfold clearCache; simp

mutual
theorem onChangeAux_registries : ∀ (f : Nat) (w : World) (i : Nat),
    (onChangeAux f w i).registries = w.registries
  | 0, _, _ => rfl
  | f + 1, w, i => by
    unfold onChangeAux
    rw [onChangeList_registries f _ _]
    simp

theorem onChangeList_registries : ∀ (f : Nat) (w : World) (ls : List Nat),
    (onChangeList f w ls).registries = w.registries
  | 0, _, _ => rfl
  | _ + 1, _, [] => rfl
  | f + 1, w, j :: rest => by
    unfold onChangeList
    rw [onChangeList_registries f _ _, onChangeAux_registries f _ _]
end

mutual
theorem onChangeAux_events : ∀ (f : Nat) (w : World) (i : Nat),
    (onChangeAux f w i).events = w.events
  | 0, _, _ => rfl
  | f + 1, w, i => by
    unfold onChangeAux
    rw [onChangeList_events f _ _]
    simp

theorem onChangeList_events : ∀ (f : Nat) (w : World) (ls : List Nat),
    (onChangeList f w ls).events = w.events
  | 0, _, _ => rfl
  | _ + 1, _, [] => rfl
  | f + 1, w, j :: rest => by
    unfold onChangeList
    rw [onChangeList_events f _ _, onChangeAux_events f _ _]
end

mutual
theorem onChangeAux_length : ∀ (f : Nat) (w : World) (i : Nat),
    (onChangeAux f w i).containers.length = w.containers.length
  | 0, _, _ => rfl
  | f + 1, w, i => by
    unfold onChangeAux
    rw [onChangeList_length f _ _]
    simp

theorem onChangeList_length : ∀ (f : Nat) (w : World) (ls : List Nat),
    (onChangeList f w ls).containers.length = w.containers.length
  | 0, _, _ => rfl
  | _ + 1, _, [] => rfl
  | f + 1, w, j :: rest => by
    unfold onChangeList
    rw [onChangeList_length f _ _, onChangeAux_length f _ _]
end

@[simp] theorem onChange_registries (w : World) (i : Nat) :
    (onChange w i).registries = w.registries :=
  onChangeAux_registries _ _ _

@[simp] theorem onChange_events (w : World) (i : Nat) :
    (onChange w i).events = w.events :=
  onChangeAux_events _ _ _

@[simp] theorem addValue_registries (w : World) (i : Nat) (id : DepId) (v : Val)
    (td : Option Nat) : (addValue w i id v td).registries = w.registries := by
  unfold addValue
  simp

@[simp] theorem addValue_events (w : World) (i : Nat) (id : DepId) (v : Val)
    (td : Option Nat) : (addValue w i id v td).events = w.events := by
  unfold addValue
  simp [onChange_events]

/-- The strip-stale-edges-then-add-node pattern (used by `register_factory`,
`add_value` and `add_factory`) produces the same graph whether or not the node
previously existed, because `addNode` filters the out-edges again. -/
theorem addNode_strip (g : DiGraph) (id : DepId) (d : DependencyData) :
    DiGraph.addNode
      (if g.containsNode id then
        { g with edges := g.edges.filter (fun e => e.1 ≠ id) }
      else g) id d
    = ⟨aupsert g.nodes id d, g.edges.filter (fun e => decide (e.1 ≠ id))⟩ := by
  by_cases h : g.containsNode id <;>
    simp [h, DiGraph.addNode, List.filter_filter]

/-- Building a container on a world holding a single registry and no prior
containers: the registry is frozen with the new container's index, and the
container starts with the registry's graph plus the `Container`
self-registration. -/
theorem mkContainer_solo (r : Registry) :
    mkContainer ⟨[r], [], 0, []⟩ 0 Option.none Option.none =
    (⟨[{ r with activeContainers := 0 :: r.activeContainers }],
      [{ registryIdx := 0, parentIdx := Option.none, tag := Option.none, closed := false,
         graph := ⟨aupsert r.graph.nodes containerDepId ⟨[], .const Val.pynone, Option.none⟩,
                   r.graph.edges.filter (fun e => decide (e.1 ≠ containerDepId))⟩,
         instances := [(containerDepId, Val.containerRef 0)],
         exprCache := [], listeners := [] }], 0, []⟩, 0) := by
  unfold mkContainer addValue onChange
  simp only [World.modifyRegistry, World.modifyContainer]
  by_cases h : r.graph.containsNode containerDepId <;>
    simp [h, DiGraph.addNode, List.filter_filter, onChangeAux, onChangeList,
      clearCache, listenersOf, World.modifyContainer, aupsert]

/-- Unpacking a successful parameterless `register_factory`: it stores the
node under the id and leaves the id without outgoing edges. -/
theorem registerFactory_nil_ok (r r' : Registry) (id : DepId)
    (behavior : FactoryBehavior) (td : Option Nat)
    (h : r.registerFactory id [] behavior td = .ok r') :
    alookup r'.graph.nodes id = some ⟨[], behavior, td⟩ ∧
    DiGraph.succs r'.graph.edges id = [] ∧
    r'.activeContainers = [] ∧ r.activeContainers = [] := by
  unfold Registry.registerFactory at h
  by_cases ha : r.activeContainers = []
  · simp only [ha, ne_eq, not_true_eq_false, if_false,
      populateGraphForDependency, paramDepIds] at h
    simp only [List.flatMap_nil, List.not_mem_nil, if_false, List.map_nil,
      List.append_nil, Except.ok.injEq] at h
    subst h
    refine ⟨?_, ?_, rfl, ha⟩
    · simp [DiGraph.addNode, alookup_aupsert_self]
    · simp only [DiGraph.addNode]
      exact DiGraph.succs_filter_ne_self _ id
  · simp [ha] at h

/-- Building a child container (index 1) on a world holding two registries and
the parent container (index 0): the child copies its registry's graph, adds the
`Container` self-registration, and registers its change listener with the
parent. -/
theorem mkContainer_child (rs0 rC : Registry) (P : ContainerState) (k : Nat)
    (evs : List Event) :
    mkContainer ⟨[rs0, rC], [P], k, evs⟩ 1 (some 0) Option.none =
    (⟨[rs0, { rC with activeContainers := 1 :: rC.activeContainers }],
      [{ P with listeners := P.listeners ++ [1] },
       { registryIdx := 1, parentIdx := some 0, tag := Option.none, closed := false,
         graph := ⟨aupsert rC.graph.nodes containerDepId ⟨[], .const Val.pynone, Option.none⟩,
                   rC.graph.edges.filter (fun e => decide (e.1 ≠ containerDepId))⟩,
         instances := [(containerDepId, Val.containerRef 1)],
         exprCache := [], listeners := [] }], k, evs⟩, 1) := by
  unfold mkContainer addValue onChange
  simp only [World.modifyRegistry, World.modifyContainer]
  by_cases h : rC.graph.containsNode containerDepId <;>
    simp [h, DiGraph.addNode, List.filter_filter, onChangeAux, onChangeList,
      clearCache, listenersOf, World.modifyContainer, aupsert]

/-- `mkContainer_solo` for a world that carries a second registry (used for
parent/child scenarios where each container has its own registry). -/
theorem mkContainer_first (rs0 rs1 : Registry) :
    mkContainer ⟨[rs0, rs1], [], 0, []⟩ 0 Option.none Option.none =
    (⟨[{ rs0 with activeContainers := 0 :: rs0.activeContainers }, rs1],
      [{ registryIdx := 0, parentIdx := Option.none, tag := Option.none, closed := false,
         graph := ⟨aupsert rs0.graph.nodes containerDepId ⟨[], .const Val.pynone, Option.none⟩,
                   rs0.graph.edges.filter (fun e => decide (e.1 ≠ containerDepId))⟩,
         instances := [(containerDepId, Val.containerRef 0)],
         exprCache := [], listeners := [] }], 0, []⟩, 0) := by
  unfold mkContainer addValue onChange
  simp only [World.modifyRegistry, World.modifyContainer]
  by_cases h : rs0.graph.containsNode containerDepId <;>
    simp [h, DiGraph.addNode, List.filter_filter, onChangeAux, onChangeList,
      clearCache, listenersOf, World.modifyContainer, aupsert]

/-- An unfrozen registry accepts a registration that has no direct
self-dependency. -/
theorem registerFactory_ok_of_unfrozen (r : Registry) (id : DepId)
    (params : List (String × DependencyExpression)) (behavior : FactoryBehavior)
    (td : Option Nat) (h0 : r.activeContainers = [])
    (hself : id ∉ paramDepIds params) :
    ∃ r', r.registerFactory id params behavior td = .ok r' := by
  unfold Registry.registerFactory
  simp only [h0, ne_eq, not_true_eq_false, if_false, populateGraphForDependency, hself]
  exact ⟨_, rfl⟩

/-- C5: while a container is bound to a registry (frozen state), both
`register_value` and `register_factory` raise `RegistryFrozen` and the
registry's dependency graph is untouched (the bound registry still carries the
original graph, and the failed call produces no updated registry); after the
bound container is closed, the same registrations succeed. -/
theorem c5_frozen_rejects_until_all_containers_closed
    (r : Registry) (id : DepId) (params : List (String × DependencyExpression))
    (behavior : FactoryBehavior) (td : Option Nat)
    (h0 : r.activeContainers = [])
    (hself : id ∉ paramDepIds params) :
    ∃ r1 r2,
      (mkContainer ⟨[r], [], 0, []⟩ 0 Option.none Option.none).1.registries[0]? = some r1 ∧
      r1.registerFactory id params behavior td = .error .frozen ∧
      (∀ v, r1.registerValue id v td = .error .frozen) ∧
      r1.graph = r.graph ∧
      (closeContainer (mkContainer ⟨[r], [], 0, []⟩ 0 Option.none Option.none).1
          (mkContainer ⟨[r], [], 0, []⟩ 0 Option.none Option.none).2).registries[0]?
        = some r2 ∧
      r2.graph = r.graph ∧
      (∃ r3, r2.registerFactory id params behavior td = .ok r3) ∧
      (∀ v, ∃ r4, r2.registerValue id v td = .ok r4) := by
  have hm := mkContainer_solo r
  refine ⟨⟨r.graph, [0]⟩, ⟨r.graph, []⟩, ?_, ?_, ?_, rfl, ?_, rfl, ?_, ?_⟩
  · rw [hm]
    simp [h0]
  · unfold Registry.registerFactory
    simp
  · intro v
    unfold Registry.registerValue Registry.registerFactory
    simp
  · rw [hm]
    simp [closeContainer, World.modifyRegistry, World.modifyContainer, h0]
  · exact registerFactory_ok_of_unfrozen ⟨r.graph, []⟩ id params behavior td rfl hself
  · intro v
    exact registerFactory_ok_of_unfrozen ⟨r.graph, []⟩ id [] (.const v) td rfl
      (by simp [paramDepIds])

/-- Witness for C5: a fresh registry, the id `m.T` and a parameterless
constant factory satisfy the hypotheses. -/
theorem c5_frozen_rejects_until_all_containers_closed_witness :
    Registry.new.activeContainers = [] ∧
    ("m.T" : DepId) ∉ paramDepIds [] ∧
    (∃ r1 r2,
      (mkContainer ⟨[Registry.new], [], 0, []⟩ 0 Option.none Option.none).1.registries[0]?
        = some r1 ∧
      r1.registerFactory "m.T" [] (.const (Val.obj 1)) Option.none = .error .frozen ∧
      (∀ v, r1.registerValue "m.T" v Option.none = .error .frozen) ∧
      r1.graph = Registry.new.graph ∧
      (closeContainer (mkContainer ⟨[Registry.new], [], 0, []⟩ 0 Option.none Option.none).1
          (mkContainer ⟨[Registry.new], [], 0, []⟩ 0 Option.none Option.none).2).registries[0]?
        = some r2 ∧
      r2.graph = Registry.new.graph ∧
      (∃ r3, r2.registerFactory "m.T" [] (.const (Val.obj 1)) Option.none = .ok r3) ∧
      (∀ v, ∃ r4, r2.registerValue "m.T" v Option.none = .ok r4)) :=
  ⟨rfl, by decide,
   c5_frozen_rejects_until_all_containers_closed Registry.new "m.T" []
     (.const (Val.obj 1)) Option.none rfl (by decide)⟩

/-- C3: the condition fallback algebra.  For a container `i` (open, arbitrary
world): (a) resolving `If[U] | None` when `U` is unregistered in the whole
container chain returns `None` without error; (b) resolving `Try[R] | None`
when `R` is registered but its factory raises returns `None` without error;
(c) resolving `Try[S] | None` when construction succeeds returns the
constructed value. -/
theorem c3_if_try_none_fallbacks (n : Nat) (w : World) (i : Nat) (c : ContainerState)
    (idU idR idS : DepId) (tdR tdS : Option Nat) (v : Val)
    (hc : w.containers[i]? = some c) (hopen : c.closed = false)
    (hU : containsDep (w.containers.length + 1) w i idU = false)
    (hcacheU : alookup c.exprCache (createExpr [TypeAtom.ifC idU, TypeAtom.noneTy])
      = Option.none)
    (hinstR : alookup c.instances idR = Option.none)
    (hnodeR : alookup c.graph.nodes idR = some ⟨[], .raise, tdR⟩)
    (hchR : idR ∉ c.graph.children idR)
    (hcacheR : alookup c.exprCache (createExpr [TypeAtom.tryC idR, TypeAtom.noneTy])
      = Option.none)
    (hinstS : alookup c.instances idS = Option.none)
    (hnodeS : alookup c.graph.nodes idS = some ⟨[], .const v, tdS⟩)
    (hchS : idS ∉ c.graph.children idS)
    (hcacheS : alookup c.exprCache (createExpr [TypeAtom.tryC idS, TypeAtom.noneTy])
      = Option.none) :
    (resolveExpr (n + 5) w i (createExpr [TypeAtom.ifC idU, TypeAtom.noneTy])).2
      = .ok Val.pynone ∧
    (resolveExpr (n + 5) w i (createExpr [TypeAtom.tryC idR, TypeAtom.noneTy])).2
      = .ok Val.pynone ∧
    (resolveExpr (n + 5) w i (createExpr [TypeAtom.tryC idS, TypeAtom.noneTy])).2
      = .ok v := by
  simp only [createExpr, createConds, createRequired] at *
  refine ⟨?_, ?_, ?_⟩
  · simp [resolveExpr, condLoop, condGetFrom, hc, hopen, hU, hcacheU, cacheSet]
  · simp [resolveExpr, condLoop, condGetFrom, getDep, resolveParams, runFactory,
      hc, hopen, hinstR, hnodeR, hchR, hcacheR, cacheSet, World.logEvent,
      World.modifyContainer]
  · simp [resolveExpr, condLoop, condGetFrom, getDep, resolveParams, runFactory,
      hc, hopen, hinstS, hnodeS, hchS, hcacheS, cacheSet, World.logEvent,
      World.modifyContainer]

/-- Witness for C3: on a container whose registry has a raising factory for
`m.R` and a succeeding one for `m.S`, with `m.U` unregistered. -/
theorem c3_if_try_none_fallbacks_witness :
    sampleCondWorld.containers[0]? = some sampleCondContainer ∧
    sampleCondContainer.closed = false ∧
    containsDep (sampleCondWorld.containers.length + 1) sampleCondWorld 0 "m.U" = false ∧
    alookup sampleCondContainer.exprCache
      (createExpr [TypeAtom.ifC "m.U", TypeAtom.noneTy]) = Option.none ∧
    alookup sampleCondContainer.instances "m.R" = Option.none ∧
    alookup sampleCondContainer.graph.nodes "m.R" = some ⟨[], .raise, Option.none⟩ ∧
    ("m.R" : DepId) ∉ sampleCondContainer.graph.children "m.R" ∧
    alookup sampleCondContainer.exprCache
      (createExpr [TypeAtom.tryC "m.R", TypeAtom.noneTy]) = Option.none ∧
    alookup sampleCondContainer.instances "m.S" = Option.none ∧
    alookup sampleCondContainer.graph.nodes "m.S"
      = some ⟨[], .const (Val.obj 3), Option.none⟩ ∧
    ("m.S" : DepId) ∉ sampleCondContainer.graph.children "m.S" ∧
    alookup sampleCondContainer.exprCache
      (createExpr [TypeAtom.tryC "m.S", TypeAtom.noneTy]) = Option.none ∧
    ((resolveExpr (0 + 5) sampleCondWorld 0
        (createExpr [TypeAtom.ifC "m.U", TypeAtom.noneTy])).2 = .ok Val.pynone ∧
     (resolveExpr (0 + 5) sampleCondWorld 0
        (createExpr [TypeAtom.tryC "m.R", TypeAtom.noneTy])).2 = .ok Val.pynone ∧
     (resolveExpr (0 + 5) sampleCondWorld 0
        (createExpr [TypeAtom.tryC "m.S", TypeAtom.noneTy])).2 = .ok (Val.obj 3)) :=
  ⟨by decide, rfl, by decide, rfl, rfl, by decide, by decide, rfl, rfl, by decide,
   by decide, rfl,
   c3_if_try_none_fallbacks 0 sampleCondWorld 0 sampleCondContainer "m.U" "m.R" "m.S"
     Option.none Option.none (Val.obj 3) (by decide) rfl (by decide) rfl rfl
     (by decide) (by decide) rfl rfl (by decide) (by decide) rfl⟩

theorem alookup_eq_none_of_not_mem [DecidableEq κ] (l : List (κ × α)) (k : κ)
    (h : k ∉ l.map Prod.fst) : alookup l k = Option.none := by
  induction l with
  | nil => rfl
  | cons p rest ih =>
    simp only [List.map_cons, List.mem_cons, not_or] at h
    obtain ⟨h1, h2⟩ := h
    obtain ⟨k', v⟩ := p
    simp only [alookup_cons]
    rw [if_neg (by simpa using h1), ih h2]

@[simp] theorem countTeardownFor_nil (id : DepId) : countTeardownFor [] id = 0 := rfl

@[simp] theorem countTeardownFor_cons_teardown (k : DepId) (v : Val) (td : Nat)
    (evs : List Event) (id : DepId) :
    countTeardownFor (Event.teardown k v td :: evs) id
      = (if k = id then 1 else 0) + countTeardownFor evs id := by
  by_cases h : k = id <;>
    simp [countTeardownFor, List.filter_cons, h, Nat.add_comm]

@[simp] theorem countTeardownFor_cons_factory (i : Nat) (k : DepId)
    (evs : List Event) (id : DepId) :
    countTeardownFor (Event.factoryRun i k :: evs) id = countTeardownFor evs id := by
  simp [countTeardownFor, List.filter_cons]

/-- Counting the teardown events produced for one dependency id: exactly one
when the container holds an instance for the id and its node carries a
teardown, zero otherwise. -/
theorem countTeardownFor_filterMap (g : List (DepId × DependencyData))
    (inst : List (DepId × Val)) (id : DepId)
    (hnd : (inst.map Prod.fst).Nodup) :
    countTeardownFor (inst.filterMap (fun p =>
      match alookup g p.1 with
      | Option.none => Option.none
      | some d => d.teardown.map (fun td => Event.teardown p.1 p.2 td))) id =
    (if (alookup inst id).isSome ∧
        ((alookup g id).bind (fun d => d.teardown)).isSome
     then 1 else 0) := by
  induction inst with
  | nil => simp
  | cons p rest ih =>
    obtain ⟨k, v⟩ := p
    simp only [List.map_cons, List.nodup_cons] at hnd
    obtain ⟨hk, hnd'⟩ := hnd
    have hrestk : alookup rest k = Option.none := alookup_eq_none_of_not_mem rest k hk
    simp only [List.filterMap_cons]
    by_cases hik : id = k
    · subst hik
      cases hg : alookup g id with
      | none => simp [hg, ih hnd', hrestk]
      | some d =>
        cases htd : d.teardown with
        | none => simp [hg, htd, ih hnd', hrestk]
        | some td => simp [hg, htd, ih hnd', hrestk]
    · have hik' : ¬(k = id) := fun h => hik h.symm
      cases hg : alookup g k with
      | none => simp [hg, ih hnd', alookup_cons, hik]
      | some d =>
        cases htd : d.teardown with
        | none => simp [hg, htd, ih hnd', alookup_cons, hik]
        | some td => simp [hg, htd, ih hnd', alookup_cons, hik, hik']

/-- C4: closing a container produces, for every dependency id, exactly one
teardown invocation when that container holds a created instance for the id
and the id's node registered a teardown callback — and zero teardown
invocations otherwise (in particular for dependencies never constructed in
that container, e.g. never requested or satisfied by an ancestor). -/
theorem c4_close_runs_teardown_exactly_once (w : World) (i : Nat)
    (c : ContainerState) (id : DepId)
    (hc : w.containers[i]? = some c)
    (hnd : (c.instances.map Prod.fst).Nodup) :
    countTeardownFor ((closeContainer w i).events.drop w.events.length) id =
      (if (alookup c.instances id).isSome ∧
          ((alookup c.graph.nodes id).bind (fun d => d.teardown)).isSome
       then 1 else 0) := by
  have hevents : (closeContainer w i).events = w.events ++ teardownEventsOf c := by
    unfold closeContainer
    rw [hc]
    cases hp : c.parentIdx with
    | none => simp [hp]
    | some p => simp [hp]
  rw [hevents, List.drop_left]
  exact countTeardownFor_filterMap c.graph.nodes c.instances id hnd

/-- Witness for C4: a container that memoized `m.T` (whose node carries
teardown callback 42).  Closing it produces exactly one teardown for `m.T`
(and, e.g., zero for the teardown-less `Container` self-registration). -/
theorem c4_close_runs_teardown_exactly_once_witness :
    sampleTdWorld.containers[0]? = some sampleTdContainer ∧
    (sampleTdContainer.instances.map Prod.fst).Nodup ∧
    countTeardownFor ((closeContainer sampleTdWorld 0).events.drop
        sampleTdWorld.events.length) "m.T" =
      (if (alookup sampleTdContainer.instances "m.T").isSome ∧
          ((alookup sampleTdContainer.graph.nodes "m.T").bind
            (fun d => d.teardown)).isSome
       then 1 else 0) :=
  ⟨by decide, by decide,
   c4_close_runs_teardown_exactly_once sampleTdWorld 0 sampleTdContainer "m.T"
     (by decide) (by decide)⟩

/-- C10 counterexample: after `add_value(N, None)`, the first public `get(N)`
runs the node's factory once — but the second `get(N)` returns the `None`
cached in the *expression cache* and does not re-run the factory (the run
count stays at 1), contradicting the claim that "every subsequent get(T)
re-runs the node's factory". -/
theorem c10_counterexample :
    countFactoryRuns ((getContainer 5 sampleNoneWorld 0 [TypeAtom.ty "m.N"]).1).events
      0 "m.N" = 1 ∧
    (getContainer 5 (getContainer 5 sampleNoneWorld 0 [TypeAtom.ty "m.N"]).1 0
      [TypeAtom.ty "m.N"]).2 = .ok Val.pynone ∧
    countFactoryRuns
      ((getContainer 5 (getContainer 5 sampleNoneWorld 0 [TypeAtom.ty "m.N"]).1 0
        [TypeAtom.ty "m.N"]).1).events 0 "m.N" = 1 :=
  ⟨by decide, rfl, by decide⟩

/-- C10 (amended): instance memoization in `Container._get` applies only to
non-`None` instances — (a) `_get` short-circuits to the stored instance,
without running any factory and without touching the world, exactly when the
stored instance is not `None`; (b) when the stored instance is `None`, a
direct `_get` re-runs the node's factory (one new `factoryRun` event).  The
public `get`, however, may serve the `None` from the expression cache without
re-running the factory (see the counterexample), so only resolutions that
reach `_get` re-run it. -/
theorem c10_memoization_only_for_non_none (f : Nat) (w : World) (i : Nat)
    (c : ContainerState)
    (hc : w.containers[i]? = some c) (hopen : c.closed = false) :
    (∀ id v, alookup c.instances id = some v → v ≠ Val.pynone →
      getDep (f + 1) w i id = (w, .ok v)) ∧
    (∀ id b td, alookup c.instances id = some Val.pynone →
      alookup c.graph.nodes id = some ⟨[], b, td⟩ →
      id ∉ c.graph.children id →
      ((getDep (f + 2) w i id).1).events = w.events ++ [.factoryRun i id]) := by
  constructor
  · intro id v hv hnv
    have hnv' : ¬(v = Val.pynone) := hnv
    simp [getDep, hc, hopen, hv, hnv']
  · intro id b td hv hn hch
    cases b <;>
      simp [getDep, resolveParams, runFactory, hc, hopen, hv, hn, hch,
        World.logEvent, World.modifyContainer]

/-- Witness for the amended C10 theorem: on the `add_value(N, None)` world,
the non-`None` `Container` self-instance short-circuits, while the `None`
instance for `m.N` causes a direct `_get` to run the factory again. -/
theorem c10_memoization_only_for_non_none_witness :
    sampleNoneWorld.containers[0]? = some sampleNoneContainer ∧
    sampleNoneContainer.closed = false ∧
    alookup sampleNoneContainer.instances containerDepId = some (Val.containerRef 0) ∧
    Val.containerRef 0 ≠ Val.pynone ∧
    getDep (0 + 1) sampleNoneWorld 0 containerDepId
      = (sampleNoneWorld, .ok (Val.containerRef 0)) ∧
    alookup sampleNoneContainer.instances "m.N" = some Val.pynone ∧
    alookup sampleNoneContainer.graph.nodes "m.N"
      = some ⟨[], .const Val.pynone, Option.none⟩ ∧
    ("m.N" : DepId) ∉ sampleNoneContainer.graph.children "m.N" ∧
    ((getDep (0 + 2) sampleNoneWorld 0 "m.N").1).events
      = sampleNoneWorld.events ++ [.factoryRun 0 "m.N"] :=
  ⟨by decide, rfl, by decide, by decide,
   (c10_memoization_only_for_non_none 0 sampleNoneWorld 0 sampleNoneContainer
     (by decide) rfl).1 containerDepId (Val.containerRef 0) (by decide) (by decide),
   by decide, by decide, by decide,
   (c10_memoization_only_for_non_none 0 sampleNoneWorld 0 sampleNoneContainer
     (by decide) rfl).2 "m.N" (.const Val.pynone) Option.none (by decide) (by decide)
     (by decide)⟩

/-! ### Change-listener propagation (`_on_change`). -/

theorem exprCacheOf_clearCache_self (w : World) (k : Nat) :
    exprCacheOf (clearCache w k) k = [] := by
  unfold exprCacheOf clearCache World.modifyContainer
  cases h : w.containers[k]? with
  | none => simp [h]
  | some c =>
    have hk : k < w.containers.length := by
      by_contra hk
      rw [List.getElem?_eq_none (Nat.le_of_not_lt hk)] at h
      cases h
    simp [h, List.getElem?_set_eq_of_lt _ (by simpa using hk)]

theorem exprCacheOf_clearCache_empty (w : World) (k j : Nat)
    (h : exprCacheOf w j = []) : exprCacheOf (clearCache w k) j = [] := by
  by_cases hkj : k = j
  · subst hkj; exact exprCacheOf_clearCache_self w k
  · unfold exprCacheOf clearCache World.modifyContainer at *
    cases hk : w.containers[k]? with
    | none => simpa [hk] using h
    | some c => simpa [hk, List.getElem?_set_ne hkj] using h

theorem listenersOf_clearCache (w : World) (k nn : Nat) :
    listenersOf (clearCache w k) nn = listenersOf w nn := by
  unfold listenersOf clearCache World.modifyContainer
  cases hk : w.containers[k]? with
  | none => simp [hk]
  | some c =>
    by_cases hkn : k = nn
    · subst hkn
      have hklen : k < w.containers.length := by
        by_contra hx
        rw [List.getElem?_eq_none (Nat.le_of_not_lt hx)] at hk
        cases hk
      simp [hk, List.getElem?_set_eq_of_lt _ (by simpa using hklen)]
    · simp [hk, List.getElem?_set_ne hkn]

mutual
theorem onChangeAux_cache_empty : ∀ (f : Nat) (w : World) (k j : Nat),
    exprCacheOf w j = [] → exprCacheOf (onChangeAux f w k) j = []
  | 0, _, _, _, h => h
  | f + 1, w, k, j, h => by
    unfold onChangeAux
    exact onChangeList_cache_empty f _ _ j (exprCacheOf_clearCache_empty w k j h)

theorem onChangeList_cache_empty : ∀ (f : Nat) (w : World) (ls : List Nat) (j : Nat),
    exprCacheOf w j = [] → exprCacheOf (onChangeList f w ls) j = []
  | 0, _, _, _, h => h
  | _ + 1, _, [], _, h => h
  | f + 1, w, a :: rest, j, h => by
    unfold onChangeList
    exact onChangeList_cache_empty f _ rest j (onChangeAux_cache_empty f w a j h)
end

mutual
theorem onChangeAux_listenersOf : ∀ (f : Nat) (w : World) (k nn : Nat),
    listenersOf (onChangeAux f w k) nn = listenersOf w nn
  | 0, _, _, _ => rfl
  | f + 1, w, k, nn => by
    unfold onChangeAux
    rw [onChangeList_listenersOf f _ _ nn, listenersOf_clearCache]

theorem onChangeList_listenersOf : ∀ (f : Nat) (w : World) (ls : List Nat) (nn : Nat),
    listenersOf (onChangeList f w ls) nn = listenersOf w nn
  | 0, _, _, _ => rfl
  | _ + 1, _, [], _ => rfl
  | f + 1, w, a :: rest, nn => by
    unfold onChangeList
    rw [onChangeList_listenersOf f _ rest nn, onChangeAux_listenersOf f w a nn]
end

theorem listenerChain_of_listeners_eq (w w' : World)
    (hl : ∀ nn, listenersOf w' nn = listenersOf w nn) :
    ∀ (k : Nat) (rest : List Nat) (j : Nat),
      listenerChain w k rest j → listenerChain w' k rest j := by
  intro k rest
  induction rest generalizing k with
  | nil => intro j h; exact h
  | cons a rest ih =>
    intro j h
    obtain ⟨ha, hrest⟩ := h
    exact ⟨by rw [hl]; exact ha, ih a j hrest⟩

/-- Propagation: firing `_on_change` on container `i` clears the expression
cache of every container reachable from `i` through the registered listener
chain, provided the fuel dominates the chain. -/
theorem onChangeAux_clears_chain (path : List Nat) :
    ∀ (f : Nat) (w : World) (i j B : Nat),
      listenerChain w i path j →
      (∀ nn, (listenersOf w nn).length ≤ B) →
      (B + 1) * (path.length + 1) ≤ f →
      exprCacheOf (onChangeAux f w i) j = [] := by
  induction path with
  | nil =>
    intro f w i j B hchain hB hf
    have hij : i = j := hchain
    subst hij
    cases f with
    | zero => simp at hf
    | succ f' =>
      unfold onChangeAux
      exact onChangeList_cache_empty f' _ _ i (exprCacheOf_clearCache_self w i)
  | cons k rest ih =>
    intro f w i j B hchain hB hf
    obtain ⟨hk, hrest⟩ := hchain
    cases f with
    | zero => simp at hf
    | succ f' =>
      show exprCacheOf
        (onChangeList f' (clearCache w i) (listenersOf (clearCache w i) i)) j = []
      rw [listenersOf_clearCache]
      have hw' : ∀ nn, listenersOf (clearCache w i) nn = listenersOf w nn :=
        fun nn => listenersOf_clearCache w i nn
      have hchain' : listenerChain (clearCache w i) k rest j :=
        listenerChain_of_listeners_eq w _ hw' k rest j hrest
      have hB' : ∀ nn, (listenersOf (clearCache w i) nn).length ≤ B :=
        fun nn => by rw [hw']; exact hB nn
      have hbound : (B + 1) * (rest.length + 1) + (listenersOf w i).length ≤ f' := by
        have h1 : (B + 1) * (rest.length + 1 + 1)
            = (B + 1) * (rest.length + 1) + (B + 1) := by ring
        have h2 := hB i
        simp only [List.length_cons] at hf
        omega
      clear hrest hw' hf
      generalize hls : listenersOf w i = ls at hk hbound
      clear hls
      revert hk hchain' hB' hbound
      generalize (clearCache w i) = w₁
      induction ls generalizing f' w₁ with
      | nil =>
        intro _ _ hk _
        cases hk
      | cons a ls' ihl =>
        intro hchain' hB' hk hbound
        cases f' with
        | zero =>
          exfalso
          simp only [List.length_cons] at hbound
          omega
        | succ g =>
          unfold onChangeList
          rcases List.mem_cons.mp hk with hka | hka'
          · subst hka
            apply onChangeList_cache_empty
            apply ih g w₁ k j B hchain' hB'
            simp only [List.length_cons] at hbound
            omega
          · have hlw : ∀ nn, listenersOf (onChangeAux g w₁ a) nn = listenersOf w₁ nn :=
              fun nn => onChangeAux_listenersOf g w₁ a nn
            apply ihl g (onChangeAux g w₁ a)
              (listenerChain_of_listeners_eq w₁ _ hlw k rest j hchain')
              (fun nn => (hlw nn) ▸ hB' nn) hka'
            simp only [List.length_cons] at hbound ⊢
            omega

theorem listenersOf_modifyContainer_keep (w : World) (i : Nat)
    (f : ContainerState → ContainerState)
    (hf : ∀ c, (f c).listeners = c.listeners) (nn : Nat) :
    listenersOf (w.modifyContainer i f) nn = listenersOf w nn := by
  unfold listenersOf World.modifyContainer
  cases hk : w.containers[i]? with
  | none => simp [hk]
  | some c =>
    by_cases hin : i = nn
    · subst hin
      have hlt : i < w.containers.length := by
        by_contra hx
        rw [List.getElem?_eq_none (Nat.le_of_not_lt hx)] at hk
        cases hk
      simp [hk, List.getElem?_set_eq_of_lt _ (by simpa using hlt), hf]
    · simp [hk, List.getElem?_set_ne hin]

/-- C9: when a container's bindings change via `add_value` (or a successful
`add_factory`), the container's own expression cache and the expression cache
of every container reachable from it through the registered change-listener
chain are cleared, so no later resolution on any such descendant can return a
value cached before the change. -/
theorem c9_binding_change_clears_descendant_caches (w : World) (i j : Nat)
    (path : List Nat) (id : DepId) (v : Val) (td : Option Nat)
    (hchain : listenerChain w i path j)
    (hB : ∀ nn, (listenersOf w nn).length ≤ w.containers.length)
    (hlen : path.length ≤ w.containers.length) :
    exprCacheOf (addValue w i id v td) j = [] ∧
    (∀ params b w', addFactory w i id params b td = .ok w' →
      (w.containers[i]?).isSome → exprCacheOf w' j = []) := by
  have step : ∀ (f : ContainerState → ContainerState),
      (∀ c, (f c).listeners = c.listeners) →
      exprCacheOf (onChange (w.modifyContainer i f) i) j = [] := by
    intro f hf
    have hlw : ∀ nn, listenersOf (w.modifyContainer i f) nn = listenersOf w nn :=
      listenersOf_modifyContainer_keep w i f hf
    unfold onChange
    apply onChangeAux_clears_chain path _ _ i j w.containers.length
    · exact listenerChain_of_listeners_eq w _ hlw i path j hchain
    · intro nn; rw [hlw]; exact hB nn
    · rw [World.modifyContainer_length]
      calc (w.containers.length + 1) * (path.length + 1)
          ≤ (w.containers.length + 1) * (w.containers.length + 1) :=
            Nat.mul_le_mul_left _ (by omega)
        _ ≤ (w.containers.length + 1) * (w.containers.length + 1) := le_rfl
  constructor
  · exact step _ (fun c => rfl)
  · intro params b w' hadd hsome
    unfold addFactory at hadd
    cases hca : w.containers[i]? with
    | none => rw [hca] at hsome; cases hsome
    | some c =>
      rw [hca] at hadd
      dsimp only at hadd
      split at hadd
      · cases hadd
      · cases hadd
        exact step _ (fun c => rfl)

/-- Witness for C9: on the three-container chain, an `add_value` on the root
clears the grand-child's expression cache (and a successful `add_factory`
does too). -/
theorem c9_binding_change_clears_descendant_caches_witness :
    listenerChain sampleChainWorld 0 [1, 2] 2 ∧
    (∀ nn, (listenersOf sampleChainWorld nn).length ≤ sampleChainWorld.containers.length) ∧
    ([1, 2] : List Nat).length ≤ sampleChainWorld.containers.length ∧
    (exprCacheOf (addValue sampleChainWorld 0 "m.X" (Val.obj 1) Option.none) 2 = [] ∧
     (∀ params b w', addFactory sampleChainWorld 0 "m.X" params b Option.none = .ok w' →
       (sampleChainWorld.containers[0]?).isSome → exprCacheOf w' 2 = [])) := by
  have hB : ∀ nn, (listenersOf sampleChainWorld nn).length
      ≤ sampleChainWorld.containers.length := by
    intro nn
    match nn with
    | 0 => decide
    | 1 => decide
    | 2 => decide
    | (m + 3) =>
      have hnone : sampleChainWorld.containers[m + 3]? = Option.none := by
        apply List.getElem?_eq_none
        have h3 : sampleChainWorld.containers.length = 3 := by decide
        omega
      simp [listenersOf, hnone]
  refine ⟨⟨by decide, by decide, rfl⟩, hB, by decide, ?_⟩
  exact c9_binding_change_clears_descendant_caches sampleChainWorld 0 2 [1, 2]
    "m.X" (Val.obj 1) Option.none ⟨by decide, by decide, rfl⟩ hB (by decide)

/-- A successful chain walk returns a container tagged with the requested
context. -/
theorem chainFind_tag : ∀ (f : Nat) (w : World) (cur : Option Nat) (ctx : String)
    (j : Nat), chainFind f w cur ctx = some j →
    ∃ c, w.containers[j]? = some c ∧ c.tag = some ctx := by
  intro f
  induction f with
  | zero => intro w cur ctx j h; cases h
  | succ f ih =>
    intro w cur ctx j h
    unfold chainFind at h
    cases cur with
    | none => cases h
    | some i =>
      dsimp only at h
      cases hc : w.containers[i]? with
      | none => rw [hc] at h; cases h
      | some c =>
        rw [hc] at h
        dsimp only at h
        by_cases htag : c.tag = some ctx
        · rw [if_pos htag] at h
          cases h
          exact ⟨c, hc, htag⟩
        · rw [if_neg htag] at h
          exact ih w c.parentIdx ctx j h

/-- C7: entering a scope whose label is already active on the ambient
container chain yields the identical container (the one found on the chain,
which carries that tag), constructs no new container, marks the entry as not
newly-created, and the matching exit leaves the world untouched — no teardown
runs and the container is not closed. -/
theorem c7_reentering_active_scope_is_transparent (w : World) (m : Manager)
    (ambient : Option Nat) (ctx : String) (j : Nat)
    (hfound : chainFind (w.containers.length + 1) w ambient ctx = some j) :
    enterContext w m ambient ctx = (w, m, j, false) ∧
    (enterContext w m ambient ctx).1.containers = w.containers ∧
    exitContext w m j false = w ∧
    (exitContext w m j false).events = w.events ∧
    (∃ c, w.containers[j]? = some c ∧ c.tag = some ctx) := by
  have henter : enterContext w m ambient ctx = (w, m, j, false) := by
    unfold enterContext
    rw [hfound]
  have hexit : exitContext w m j false = w := by
    unfold exitContext
    simp
  exact ⟨henter, by rw [henter], hexit, by rw [hexit],
    chainFind_tag _ w ambient ctx j hfound⟩

/-- Witness for C7: a single container tagged `app.req`; re-entering
`app.req` from that ambient container reuses it and exits without change. -/
theorem c7_reentering_active_scope_is_transparent_witness :
    chainFind
      (((mkContainer ⟨[Registry.new], [], 0, []⟩ 0 Option.none
        (some "app.req")).1).containers.length + 1)
      ((mkContainer ⟨[Registry.new], [], 0, []⟩ 0 Option.none (some "app.req")).1)
      (some 0) "app.req" = some 0 ∧
    (enterContext ((mkContainer ⟨[Registry.new], [], 0, []⟩ 0 Option.none
        (some "app.req")).1) ⟨Option.none, []⟩ (some 0) "app.req"
      = (((mkContainer ⟨[Registry.new], [], 0, []⟩ 0 Option.none (some "app.req")).1),
         ⟨Option.none, []⟩, 0, false) ∧
     (enterContext ((mkContainer ⟨[Registry.new], [], 0, []⟩ 0 Option.none
        (some "app.req")).1) ⟨Option.none, []⟩ (some 0) "app.req").1.containers
       = ((mkContainer ⟨[Registry.new], [], 0, []⟩ 0 Option.none
          (some "app.req")).1).containers ∧
     exitContext ((mkContainer ⟨[Registry.new], [], 0, []⟩ 0 Option.none
        (some "app.req")).1) ⟨Option.none, []⟩ 0 false
       = ((mkContainer ⟨[Registry.new], [], 0, []⟩ 0 Option.none (some "app.req")).1) ∧
     (exitContext ((mkContainer ⟨[Registry.new], [], 0, []⟩ 0 Option.none
        (some "app.req")).1) ⟨Option.none, []⟩ 0 false).events
       = ((mkContainer ⟨[Registry.new], [], 0, []⟩ 0 Option.none
          (some "app.req")).1).events ∧
     (∃ c, ((mkContainer ⟨[Registry.new], [], 0, []⟩ 0 Option.none
        (some "app.req")).1).containers[0]? = some c ∧ c.tag = some "app.req")) :=
  ⟨by decide,
   c7_reentering_active_scope_is_transparent
     ((mkContainer ⟨[Registry.new], [], 0, []⟩ 0 Option.none (some "app.req")).1)
     ⟨Option.none, []⟩ (some 0) "app.req" 0 (by decide)⟩

/-! ### Generated-resolver lemmas (`AutoInjecting`). -/

theorem injectPosOrKw_ok_preserves (fuel : Nat) (ci : Option Nat)
    (offset arglen : Nat) :
    ∀ (ps : List (String × Option DependencyExpression)) (i0 : Nat) (w w' : World)
      (kw kw' : List (String × Val)),
      injectPosOrKw fuel ci offset arglen w i0 ps kw = (w', .ok kw') →
      ∀ name v, alookup kw name = some v → alookup kw' name = some v := by
  intro ps
  induction ps with
  | nil =>
    intro i0 w w' kw kw' h name v hv
    simp only [injectPosOrKw, Prod.mk.injEq, Except.ok.injEq] at h
    rw [← h.2]
    exact hv
  | cons hd rest ih =>
    intro i0 w w' kw kw' h name v hv
    obtain ⟨n0, d0⟩ := hd
    simp only [injectPosOrKw] at h
    cases d0 with
    | none => exact ih _ _ _ _ _ h name v hv
    | some e =>
      dsimp only at h
      by_cases hs : (alookup kw n0).isSome
      · rw [if_pos hs] at h
        exact ih _ _ _ _ _ h name v hv
      · rw [if_neg hs] at h
        by_cases harg : arglen < (i0 + 1) - offset
        · rw [if_pos harg] at h
          cases hro : resolveOne fuel w ci e with
          | mk w1 r =>
            rw [hro] at h
            cases r with
            | error err => cases h
            | ok v0 =>
              apply ih _ _ _ _ _ h name v
              have hne : name ≠ n0 := by
                intro hn
                subst hn
                rw [hv] at hs
                exact hs rfl
              rw [alookup_aupsert_ne _ _ _ _ hne]
              exact hv
        · rw [if_neg harg] at h
          exact ih _ _ _ _ _ h name v hv

theorem injectKwOnly_ok_preserves (fuel : Nat) (ci : Option Nat) :
    ∀ (ps : List (String × Option DependencyExpression)) (w w' : World)
      (kw kw' : List (String × Val)),
      injectKwOnly fuel ci w ps kw = (w', .ok kw') →
      ∀ name v, alookup kw name = some v → alookup kw' name = some v := by
  intro ps
  induction ps with
  | nil =>
    intro w w' kw kw' h name v hv
    simp only [injectKwOnly, Prod.mk.injEq, Except.ok.injEq] at h
    rw [← h.2]
    exact hv
  | cons hd rest ih =>
    intro w w' kw kw' h name v hv
    obtain ⟨n0, d0⟩ := hd
    simp only [injectKwOnly] at h
    cases d0 with
    | none => exact ih _ _ _ _ h name v hv
    | some e =>
      dsimp only at h
      by_cases hs : (alookup kw n0).isSome
      · rw [if_pos hs] at h
        exact ih _ _ _ _ h name v hv
      · rw [if_neg hs] at h
        cases hro : resolveOne fuel w ci e with
        | mk w1 r =>
          rw [hro] at h
          cases r with
          | error err => cases h
          | ok v0 =>
            apply ih _ _ _ _ h name v
            have hne : name ≠ n0 := by
              intro hn
              subst hn
              rw [hv] at hs
              exact hs rfl
            rw [alookup_aupsert_ne _ _ _ _ hne]
            exact hv

theorem injectPosOrKw_ok_not_mentioned (fuel : Nat) (ci : Option Nat)
    (offset arglen : Nat) :
    ∀ (ps : List (String × Option DependencyExpression)) (i0 : Nat) (w w' : World)
      (kw kw' : List (String × Val)),
      injectPosOrKw fuel ci offset arglen w i0 ps kw = (w', .ok kw') →
      ∀ name, name ∉ ps.map Prod.fst → alookup kw' name = alookup kw name := by
  intro ps
  induction ps with
  | nil =>
    intro i0 w w' kw kw' h name _
    simp only [injectPosOrKw, Prod.mk.injEq, Except.ok.injEq] at h
    rw [← h.2]
  | cons hd rest ih =>
    intro i0 w w' kw kw' h name hname
    obtain ⟨n0, d0⟩ := hd
    simp only [List.map_cons, List.mem_cons, not_or] at hname
    obtain ⟨hn0, hrest⟩ := hname
    simp only [injectPosOrKw] at h
    cases d0 with
    | none => exact ih _ _ _ _ _ h name hrest
    | some e =>
      dsimp only at h
      by_cases hs : (alookup kw n0).isSome
      · rw [if_pos hs] at h
        exact ih _ _ _ _ _ h name hrest
      · rw [if_neg hs] at h
        by_cases harg : arglen < (i0 + 1) - offset
        · rw [if_pos harg] at h
          cases hro : resolveOne fuel w ci e with
          | mk w1 r =>
            rw [hro] at h
            cases r with
            | error err => cases h
            | ok v0 =>
              rw [ih _ _ _ _ _ h name hrest]
              exact alookup_aupsert_ne _ _ _ _ hn0
        · rw [if_neg harg] at h
          exact ih _ _ _ _ _ h name hrest

theorem injectKwOnly_ok_not_mentioned (fuel : Nat) (ci : Option Nat) :
    ∀ (ps : List (String × Option DependencyExpression)) (w w' : World)
      (kw kw' : List (String × Val)),
      injectKwOnly fuel ci w ps kw = (w', .ok kw') →
      ∀ name, name ∉ ps.map Prod.fst → alookup kw' name = alookup kw name := by
  intro ps
  induction ps with
  | nil =>
    intro w w' kw kw' h name _
    simp only [injectKwOnly, Prod.mk.injEq, Except.ok.injEq] at h
    rw [← h.2]
  | cons hd rest ih =>
    intro w w' kw kw' h name hname
    obtain ⟨n0, d0⟩ := hd
    simp only [List.map_cons, List.mem_cons, not_or] at hname
    obtain ⟨hn0, hrest⟩ := hname
    simp only [injectKwOnly] at h
    cases d0 with
    | none => exact ih _ _ _ _ h name hrest
    | some e =>
      dsimp only at h
      by_cases hs : (alookup kw n0).isSome
      · rw [if_pos hs] at h
        exact ih _ _ _ _ h name hrest
      · rw [if_neg hs] at h
        cases hro : resolveOne fuel w ci e with
        | mk w1 r =>
          rw [hro] at h
          cases r with
          | error err => cases h
          | ok v0 =>
            rw [ih _ _ _ _ h name hrest]
            exact alookup_aupsert_ne _ _ _ _ hn0

theorem injectPosOrKw_skips_positional (fuel : Nat) (ci : Option Nat)
    (offset arglen : Nat) :
    ∀ (ps : List (String × Option DependencyExpression)) (i0 : Nat) (w w' : World)
      (kw kw' : List (String × Val)),
      injectPosOrKw fuel ci offset arglen w i0 ps kw = (w', .ok kw') →
      (ps.map Prod.fst).Nodup →
      ∀ (p : Nat) (name : String) (dep : Option DependencyExpression),
        ps[p]? = some (name, dep) → i0 + p + 1 ≤ arglen + offset →
        alookup kw' name = alookup kw name := by
  intro ps
  induction ps with
  | nil =>
    intro i0 w w' kw kw' h _ p name dep hp
    simp at hp
  | cons hd rest ih =>
    intro i0 w w' kw kw' h hnd p name dep hp hpos
    obtain ⟨n0, d0⟩ := hd
    simp only [List.map_cons, List.nodup_cons] at hnd
    obtain ⟨hn0, hnd'⟩ := hnd
    cases p with
    | zero =>
      simp only [List.getElem?_cons_zero, Option.some.injEq, Prod.mk.injEq] at hp
      obtain ⟨rfl, rfl⟩ := hp
      have harg : ¬(arglen < (i0 + 1) - offset) := by omega
      simp only [injectPosOrKw] at h
      cases d0 with
      | none =>
        exact injectPosOrKw_ok_not_mentioned fuel ci offset arglen rest _ _ _ _ _ h n0 hn0
      | some e =>
        dsimp only at h
        by_cases hs : (alookup kw n0).isSome
        · rw [if_pos hs] at h
          exact injectPosOrKw_ok_not_mentioned fuel ci offset arglen rest _ _ _ _ _ h n0 hn0
        · rw [if_neg hs, if_neg harg] at h
          exact injectPosOrKw_ok_not_mentioned fuel ci offset arglen rest _ _ _ _ _ h n0 hn0
    | succ q =>
      simp only [List.getElem?_cons_succ] at hp
      have hmem : name ∈ rest.map Prod.fst := by
        have := List.getElem?_mem hp
        exact List.mem_map_of_mem Prod.fst this
      have hne : n0 ≠ name := fun hn => hn0 (hn ▸ hmem)
      simp only [injectPosOrKw] at h
      cases d0 with
      | none => exact ih _ _ _ _ _ h hnd' q name dep hp (by omega)
      | some e =>
        dsimp only at h
        by_cases hs : (alookup kw n0).isSome
        · rw [if_pos hs] at h
          exact ih _ _ _ _ _ h hnd' q name dep hp (by omega)
        · rw [if_neg hs] at h
          by_cases harg : arglen < (i0 + 1) - offset
          · rw [if_pos harg] at h
            cases hro : resolveOne fuel w ci e with
            | mk w1 r =>
              rw [hro] at h
              cases r with
              | error err => cases h
              | ok v0 =>
                rw [ih _ _ _ _ _ h hnd' q name dep hp (by omega)]
                exact alookup_aupsert_ne _ _ _ _ (fun hn => hne hn.symm)
          · rw [if_neg harg] at h
            exact ih _ _ _ _ _ h hnd' q name dep hp (by omega)

theorem injectPosOrKw_all_supplied (fuel : Nat) (ci : Option Nat)
    (offset arglen : Nat) :
    ∀ (ps : List (String × Option DependencyExpression)) (i0 : Nat) (w : World)
      (kw : List (String × Val)),
      (∀ (p : Nat) (name : String) (e : DependencyExpression),
        ps[p]? = some (name, some e) →
        i0 + p + 1 ≤ arglen + offset ∨ (alookup kw name).isSome) →
      injectPosOrKw fuel ci offset arglen w i0 ps kw = (w, .ok kw) := by
  intro ps
  induction ps with
  | nil => intro i0 w kw _; rfl
  | cons hd rest ih =>
    intro i0 w kw hsup
    obtain ⟨n0, d0⟩ := hd
    simp only [injectPosOrKw]
    cases d0 with
    | none =>
      exact ih _ _ _ (fun p name e hp => by
        rcases hsup (p + 1) name e (by simpa using hp) with h1 | h2
        · left; omega
        · right; exact h2)
    | some e =>
      dsimp only
      rcases hsup 0 n0 e (by simp) with hpos | hs
      · have harg : ¬(arglen < (i0 + 1) - offset) := by omega
        by_cases hs' : (alookup kw n0).isSome
        · rw [if_pos hs']
          exact ih _ _ _ (fun p name e hp => by
            rcases hsup (p + 1) name e (by simpa using hp) with h1 | h2
            · left; omega
            · right; exact h2)
        · rw [if_neg hs', if_neg harg]
          exact ih _ _ _ (fun p name e hp => by
            rcases hsup (p + 1) name e (by simpa using hp) with h1 | h2
            · left; omega
            · right; exact h2)
      · rw [if_pos hs]
        exact ih _ _ _ (fun p name e hp => by
          rcases hsup (p + 1) name e (by simpa using hp) with h1 | h2
          · left; omega
          · right; exact h2)

theorem injectKwOnly_all_supplied (fuel : Nat) (ci : Option Nat) :
    ∀ (ps : List (String × Option DependencyExpression)) (w : World)
      (kw : List (String × Val)),
      (∀ name e, (name, some e) ∈ ps → (alookup kw name).isSome) →
      injectKwOnly fuel ci w ps kw = (w, .ok kw) := by
  intro ps
  induction ps with
  | nil => intro w kw _; rfl
  | cons hd rest ih =>
    intro w kw hsup
    obtain ⟨n0, d0⟩ := hd
    simp only [injectKwOnly]
    cases d0 with
    | none => exact ih _ _ (fun name e hp => hsup name e (List.mem_cons_of_mem _ hp))
    | some e =>
      dsimp only
      rw [if_pos (hsup n0 e (List.mem_cons_self _ _))]
      exact ih _ _ (fun name e hp => hsup name e (List.mem_cons_of_mem _ hp))

/-- C8: the generated dependency resolver never overwrites a caller-supplied
argument.  (a) every keyword argument supplied by the caller survives into the
final keyword map with its value unchanged; (b) a positional-or-keyword
parameter covered by the caller's positional arguments is left untouched (its
entry in the keyword map is exactly what the caller put there — nothing, if it
arrived positionally); (c) when every injectable parameter is supplied by the
caller, the resolver performs no dependency resolution at all: the world and
the keyword map are returned unchanged.  Injection only fills gaps. -/
theorem c8_injection_never_overwrites_caller_args (fuel : Nat) (ci : Option Nat)
    (offset arglen : Nat)
    (posOrKw kwOnly : List (String × Option DependencyExpression))
    (kwargs : List (String × Val)) (w w' : World) (kw' : List (String × Val))
    (hnd : ((posOrKw ++ kwOnly).map Prod.fst).Nodup)
    (hres : resolveDependencies fuel w ci offset posOrKw kwOnly arglen kwargs
      = (w', .ok kw')) :
    (∀ name v, alookup kwargs name = some v → alookup kw' name = some v) ∧
    (∀ (p : Nat) (name : String) (dep : Option DependencyExpression),
      posOrKw[p]? = some (name, dep) → p + 1 ≤ arglen + offset →
      alookup kw' name = alookup kwargs name) ∧
    ((∀ (p : Nat) (name : String) (e : DependencyExpression),
        posOrKw[p]? = some (name, some e) →
        p + 1 ≤ arglen + offset ∨ (alookup kwargs name).isSome) →
     (∀ (name : String) (e : DependencyExpression),
        (name, some e) ∈ kwOnly → (alookup kwargs name).isSome) →
     resolveDependencies fuel w ci offset posOrKw kwOnly arglen kwargs
       = (w, .ok kwargs)) := by
  rw [List.map_append, List.nodup_append] at hnd
  obtain ⟨hnd1, hnd2, hdisj⟩ := hnd
  unfold resolveDependencies at hres
  cases hpos : injectPosOrKw fuel ci offset arglen w 0 posOrKw kwargs with
  | mk w1 r1 =>
    rw [hpos] at hres
    cases r1 with
    | error err => cases hres
    | ok kw1 =>
      refine ⟨?_, ?_, ?_⟩
      · intro name v hv
        exact injectKwOnly_ok_preserves fuel ci kwOnly w1 w' kw1 kw' hres name v
          (injectPosOrKw_ok_preserves fuel ci offset arglen posOrKw 0 w w1
            kwargs kw1 hpos name v hv)
      · intro p name dep hp hple
        have hmem : name ∈ posOrKw.map Prod.fst :=
          List.mem_map_of_mem Prod.fst (List.getElem?_mem hp)
        have hnot : name ∉ kwOnly.map Prod.fst := hdisj hmem
        rw [injectKwOnly_ok_not_mentioned fuel ci kwOnly w1 w' kw1 kw' hres name hnot]
        exact injectPosOrKw_skips_positional fuel ci offset arglen posOrKw 0 w w1
          kwargs kw1 hpos hnd1 p name dep hp (by omega)
      · intro hsup1 hsup2
        unfold resolveDependencies
        rw [injectPosOrKw_all_supplied fuel ci offset arglen posOrKw 0 w kwargs
          (fun p name e hp => by
            rcases hsup1 p name e hp with h1 | h2
            · left; omega
            · right; exact h2)]
        exact injectKwOnly_all_supplied fuel ci kwOnly w kwargs hsup2

/-- Witness for C8: the plan of `f(x: int)` with `int ↦ 5` registered.  With
the caller passing `x` positionally (`f(10)`), nothing is injected and the
binding for `x` is the caller's argument; with no caller argument (`f()`),
the resolver fills `x = 5`. -/
theorem c8_injection_never_overwrites_caller_args_witness :
    ((samplePosOrKw ++ []).map Prod.fst).Nodup ∧
    resolveDependencies 5 sampleIntWorld (some 0) 0 samplePosOrKw [] 1 []
      = (sampleIntWorld, .ok []) ∧
    ((∀ name v, alookup ([] : List (String × Val)) name = some v →
        alookup ([] : List (String × Val)) name = some v) ∧
     (∀ (p : Nat) (name : String) (dep : Option DependencyExpression),
        samplePosOrKw[p]? = some (name, dep) → p + 1 ≤ 1 + 0 →
        alookup ([] : List (String × Val)) name
          = alookup ([] : List (String × Val)) name) ∧
     ((∀ (p : Nat) (name : String) (e : DependencyExpression),
        samplePosOrKw[p]? = some (name, some e) →
        p + 1 ≤ 1 + 0 ∨ (alookup ([] : List (String × Val)) name).isSome) →
      (∀ (name : String) (e : DependencyExpression),
        (name, some e) ∈ ([] : List (String × Option DependencyExpression)) →
        (alookup ([] : List (String × Val)) name).isSome) →
      resolveDependencies 5 sampleIntWorld (some 0) 0 samplePosOrKw [] 1 []
        = (sampleIntWorld, .ok []))) ∧
    paramBinding samplePosOrKw [Val.obj 10] [] 0 = some (Val.obj 10) ∧
    (resolveDependencies 5 sampleIntWorld (some 0) 0 samplePosOrKw [] 0 []).2
      = .ok [("x", Val.obj 5)] ∧
    paramBinding samplePosOrKw [] [("x", Val.obj 5)] 0 = some (Val.obj 5) :=
  ⟨by decide, rfl,
   c8_injection_never_overwrites_caller_args 5 (some 0) 0 1 samplePosOrKw [] []
     sampleIntWorld sampleIntWorld [] (by decide) rfl,
   by decide, rfl, by decide⟩

/-- C1 counterexample: the claim quantifies over *every* type `T`, but
`Container.__init__` always executes `add_value(Container, self)`
(container.py:83), overriding any `register_value(Container, v)` made on the
registry.  Registering the value `obj 7` under the `Container` dependency id
and then building a container yields `get(Container) = containerRef 0 ≠ obj 7`
on that container. -/
theorem c1_counterexample :
    (Registry.new.registerValue containerDepId (Val.obj 7) Option.none).map
      (fun r' =>
        (getContainer 5 (mkContainer ⟨[r'], [], 0, []⟩ 0 Option.none Option.none).1 0
          [TypeAtom.ty containerDepId]).2)
      = .ok (.ok (Val.containerRef 0)) ∧
    Val.containerRef 0 ≠ Val.obj 7 := by
  constructor
  · rfl
  · decide

/-- C1 (amended): for every registry `r`, value `v` and type `T` whose
dependency id differs from the `Container` self-registration id, after
`register_value(T, v)` succeeds, a container built from that registry returns
exactly `v` on the first `get(T)`, and the second `get(T)` returns `v` again
while leaving the container state unchanged — hence every subsequent call also
returns exactly `v`. -/
theorem c1_registered_value_identity_stable (n : Nat) (r r' : Registry)
    (idT : DepId) (v : Val) (td : Option Nat)
    (hT : idT ≠ containerDepId)
    (hreg : r.registerValue idT v td = .ok r') :
    (getContainer (n + 3) (mkContainer ⟨[r'], [], 0, []⟩ 0 Option.none Option.none).1 0
        [TypeAtom.ty idT]).2 = .ok v ∧
    getContainer (n + 3)
        (getContainer (n + 3) (mkContainer ⟨[r'], [], 0, []⟩ 0 Option.none Option.none).1 0
          [TypeAtom.ty idT]).1 0 [TypeAtom.ty idT]
      = ((getContainer (n + 3) (mkContainer ⟨[r'], [], 0, []⟩ 0 Option.none Option.none).1 0
          [TypeAtom.ty idT]).1, .ok v) := by
  obtain ⟨hnode, hsucc, -, -⟩ := Registry.registerValue_ok r r' idT v td hreg
  have hT' : ¬(idT = containerDepId) := hT
  have hT'' : ¬(containerDepId = idT) := fun h => hT h.symm
  have hnode' : alookup (aupsert r'.graph.nodes containerDepId
      ⟨[], .const Val.pynone, Option.none⟩) idT = some ⟨[], .const v, td⟩ := by
    rw [alookup_aupsert_ne _ _ _ _ hT]; exact hnode
  have hchild : DiGraph.children
      ⟨aupsert r'.graph.nodes containerDepId ⟨[], .const Val.pynone, Option.none⟩,
        r'.graph.edges.filter (fun e => decide (e.1 ≠ containerDepId))⟩ idT = [] :=
    DiGraph.children_nil_of_succs_nil _ _ (DiGraph.succs_nil_of_filter _ _ _ hsucc)
  simp only [ne_eq, decide_not] at hchild
  rw [mkContainer_solo]
  simp [getContainer, createExpr, createConds, createRequired, resolveExpr, getDep,
    resolveParams, alookup, hT', hT'', hnode', hchild, cacheSet, World.modifyContainer,
    World.logEvent, runFactory, aupsert]

/-- C2: build parent `P` (index 0) and child `C` (index 1, parent `P`), with a
type `T` registered only on `P`'s registry (any non-raising factory).  Then
`C.get(T)` succeeds with some instance `v`, a following `P.get(T)` returns the
same instance `v`, and after overriding `T` on `C` via `add_value(T, ov)`,
`C.get(T)` returns `C`'s own instance `ov` while `P.get(T)` still returns `v`,
unaffected by the override. -/
theorem c2_parent_delegation_and_child_override (n : Nat) (rP rP' rC : Registry)
    (idT : DepId) (b : FactoryBehavior) (td : Option Nat) (w1 w2 : World)
    (hT : idT ≠ containerDepId)
    (hb : b ≠ .raise)
    (hregP : rP.registerFactory idT [] b td = .ok rP')
    (hCn : alookup rC.graph.nodes idT = Option.none)
    (hw1 : mkContainer ⟨[rP', rC], [], 0, []⟩ 0 Option.none Option.none = (w1, 0))
    (hw2 : mkContainer w1 1 (some 0) Option.none = (w2, 1)) :
    ∃ v,
      (getContainer (n + 4) w2 1 [TypeAtom.ty idT]).2 = .ok v ∧
      (getContainer (n + 4) (getContainer (n + 4) w2 1 [TypeAtom.ty idT]).1 0
        [TypeAtom.ty idT]).2 = .ok v ∧
      (∀ ov utd,
        (getContainer (n + 4)
          (addValue (getContainer (n + 4) (getContainer (n + 4) w2 1 [TypeAtom.ty idT]).1 0
            [TypeAtom.ty idT]).1 1 idT ov utd) 1 [TypeAtom.ty idT]).2 = .ok ov ∧
        (getContainer (n + 4)
          (addValue (getContainer (n + 4) (getContainer (n + 4) w2 1 [TypeAtom.ty idT]).1 0
            [TypeAtom.ty idT]).1 1 idT ov utd) 0 [TypeAtom.ty idT]).2 = .ok v) := by
  obtain ⟨hnodeP, hsuccP, -, -⟩ := registerFactory_nil_ok rP rP' idT b td hregP
  have hT' : ¬(idT = containerDepId) := hT
  have hT'' : ¬(containerDepId = idT) := fun h => hT h.symm
  have hnodeP' : alookup (aupsert rP'.graph.nodes containerDepId
      ⟨[], .const Val.pynone, Option.none⟩) idT = some ⟨[], b, td⟩ := by
    rw [alookup_aupsert_ne _ _ _ _ hT]; exact hnodeP
  have hCn' : alookup (aupsert rC.graph.nodes containerDepId
      ⟨[], .const Val.pynone, Option.none⟩) idT = Option.none := by
    rw [alookup_aupsert_ne _ _ _ _ hT]; exact hCn
  have hchildP : DiGraph.children
      ⟨aupsert rP'.graph.nodes containerDepId ⟨[], .const Val.pynone, Option.none⟩,
        rP'.graph.edges.filter (fun e => decide (e.1 ≠ containerDepId))⟩ idT = [] :=
    DiGraph.children_nil_of_succs_nil _ _ (DiGraph.succs_nil_of_filter _ _ _ hsuccP)
  simp only [ne_eq, decide_not] at hchildP
  have hchildC : ∀ (ns : List (DepId × DependencyData)) (E : List (DepId × DepId)),
      DiGraph.children ⟨ns, E.filter (fun e => !decide (e.1 = idT))⟩ idT = [] :=
    fun ns E => DiGraph.children_nil_of_succs_nil _ _ (DiGraph.succs_filter_not_eq E idT)
  have hchildC2 : ∀ (ns : List (DepId × DependencyData)),
      DiGraph.children ⟨ns, rC.graph.edges.filter
        (fun a => !decide (a.1 = idT) && !decide (a.1 = containerDepId))⟩ idT = [] := by
    intro ns
    apply DiGraph.children_nil_of_all_ne
    intro e he h
    have hm := List.of_mem_filter he
    simp only [Bool.and_eq_true, Bool.not_eq_eq_eq_not, Bool.not_true,
      decide_eq_false_iff_not] at hm
    exact hm.1 h
  rw [mkContainer_first] at hw1
  simp only [Prod.mk.injEq, and_true] at hw1
  subst hw1
  rw [mkContainer_child] at hw2
  simp only [Prod.mk.injEq, and_true] at hw2
  subst hw2
  cases b with
  | raise => exact absurd rfl hb
  | fresh =>
    refine ⟨Val.obj 0, ?_⟩
    simp only [getContainer, createExpr, createConds, createRequired]
    simp [resolveExpr, getDep, resolveParams, alookup, aupsert, alookup_aupsert_self,
      hT', hT'', hnodeP', hCn', hchildP, hchildC, hchildC2, cacheSet,
      World.modifyContainer, World.logEvent, runFactory, addValue,
      DiGraph.containsNode, DiGraph.addNode, onChange, onChangeAux, onChangeList,
      clearCache, listenersOf]
    intro ov utd
    by_cases hov : ov = Val.pynone <;> simp [hov]
  | const u =>
    refine ⟨u, ?_⟩
    by_cases hu : u = Val.pynone
    · subst hu
      simp only [getContainer, createExpr, createConds, createRequired]
      simp [resolveExpr, getDep, resolveParams, alookup, aupsert, alookup_aupsert_self,
        hT', hT'', hnodeP', hCn', hchildP, hchildC, hchildC2, cacheSet,
        World.modifyContainer, World.logEvent, runFactory, addValue,
        DiGraph.containsNode, DiGraph.addNode, onChange, onChangeAux, onChangeList,
        clearCache, listenersOf]
      intro ov utd
      by_cases hov : ov = Val.pynone <;> simp [hov]
    · simp only [getContainer, createExpr, createConds, createRequired]
      simp [resolveExpr, getDep, resolveParams, alookup, aupsert, alookup_aupsert_self,
        hT', hT'', hnodeP', hCn', hchildP, hchildC, hchildC2, hu, cacheSet,
        World.modifyContainer, World.logEvent, runFactory, addValue,
        DiGraph.containsNode, DiGraph.addNode, onChange, onChangeAux, onChangeList,
        clearCache, listenersOf]
      intro ov utd
      by_cases hov : ov = Val.pynone <;> simp [hov]

/-- Witness for C2: the concrete parent/child scenario with a fresh-object
factory for `m.T` on the parent registry and an empty child registry. -/
theorem c2_parent_delegation_and_child_override_witness :
    ("m.T" : DepId) ≠ containerDepId ∧
    FactoryBehavior.fresh ≠ FactoryBehavior.raise ∧
    Registry.new.registerFactory "m.T" [] .fresh Option.none = .ok sampleParentRegistry ∧
    alookup Registry.new.graph.nodes "m.T" = Option.none ∧
    mkContainer ⟨[sampleParentRegistry, Registry.new], [], 0, []⟩ 0 Option.none Option.none
      = (sampleWorld1, 0) ∧
    mkContainer sampleWorld1 1 (some 0) Option.none = (sampleWorld2, 1) ∧
    (∃ v,
      (getContainer (0 + 4) sampleWorld2 1 [TypeAtom.ty "m.T"]).2 = .ok v ∧
      (getContainer (0 + 4) (getContainer (0 + 4) sampleWorld2 1 [TypeAtom.ty "m.T"]).1 0
        [TypeAtom.ty "m.T"]).2 = .ok v ∧
      (∀ ov utd,
        (getContainer (0 + 4)
          (addValue (getContainer (0 + 4)
            (getContainer (0 + 4) sampleWorld2 1 [TypeAtom.ty "m.T"]).1 0
            [TypeAtom.ty "m.T"]).1 1 "m.T" ov utd) 1 [TypeAtom.ty "m.T"]).2 = .ok ov ∧
        (getContainer (0 + 4)
          (addValue (getContainer (0 + 4)
            (getContainer (0 + 4) sampleWorld2 1 [TypeAtom.ty "m.T"]).1 0
            [TypeAtom.ty "m.T"]).1 1 "m.T" ov utd) 0 [TypeAtom.ty "m.T"]).2 = .ok v)) :=
  ⟨by decide, by decide, rfl, rfl, rfl, rfl,
   c2_parent_delegation_and_child_override 0 Registry.new sampleParentRegistry
     Registry.new "m.T" .fresh Option.none sampleWorld1 sampleWorld2
     (by decide) (by decide) rfl rfl rfl rfl⟩

/-- Witness for the amended C1 theorem: registering `obj 7` under id `m.T` on
a fresh registry, a container built from it returns `obj 7` on both calls. -/
theorem c1_registered_value_identity_stable_witness :
    ("m.T" : DepId) ≠ containerDepId ∧
    Registry.new.registerValue "m.T" (Val.obj 7) Option.none =
      .ok ⟨⟨[("m.T", ⟨[], .const (Val.obj 7), Option.none⟩)], []⟩, []⟩ ∧
    ((getContainer (0 + 3)
        (mkContainer ⟨[⟨⟨[("m.T", ⟨[], .const (Val.obj 7), Option.none⟩)], []⟩, []⟩],
          [], 0, []⟩ 0 Option.none Option.none).1 0 [TypeAtom.ty "m.T"]).2
        = .ok (Val.obj 7) ∧
      getContainer (0 + 3)
        (getContainer (0 + 3)
          (mkContainer ⟨[⟨⟨[("m.T", ⟨[], .const (Val.obj 7), Option.none⟩)], []⟩, []⟩],
            [], 0, []⟩ 0 Option.none Option.none).1 0 [TypeAtom.ty "m.T"]).1 0
          [TypeAtom.ty "m.T"]
        = ((getContainer (0 + 3)
            (mkContainer ⟨[⟨⟨[("m.T", ⟨[], .const (Val.obj 7), Option.none⟩)], []⟩, []⟩],
              [], 0, []⟩ 0 Option.none Option.none).1 0 [TypeAtom.ty "m.T"]).1,
           .ok (Val.obj 7))) :=
  ⟨by decide, rfl,
   c1_registered_value_identity_stable 0 Registry.new
     ⟨⟨[("m.T", ⟨[], .const (Val.obj 7), Option.none⟩)], []⟩, []⟩
     "m.T" (Val.obj 7) Option.none (by decide) rfl⟩

end Linkd
